import Mathlib

/-!
Verification of the Secure Dynamic Function Execution Subsystem
(Ai-Api-Generator backend).

The definitions below are a shallow embedding of the TypeScript source:
  * `validateCodeSafety` / `dangerousPatterns` — backend sandbox-executor
    safety scan (regex denylist, first match wins);
  * the function catalog (`StoredFunctions`, `getFunction`, `saveFunction`,
    `deleteFunction`) — function-storage service, with the JSON file made
    explicit as a passed-around association list;
  * `createFunctionRoute` / `updateFunctionRoute` — the creation/update
    handlers of routes/functions.ts, with the external AI code generator,
    token generator and clock supplied as oracle arguments;
  * `executeInSandbox` / `executeGeneratedFunction` and the two HTTP
    handlers — route-register.ts and the catch-all of index.ts, with the
    vm2 script behaviour abstracted as an oracle;
  * `validateToken` — utils/token-validator.ts;
  * `logExecution` / `getLogs` — analytics-service.ts, with the per-function
    log file made explicit as a list state.

JS regular expressions used by the source are small enough that each is
embedded as an explicit token matcher (`PatTok`), and each normalization
pass of the sandbox executor as a dedicated left-to-right scanner mirroring
`String.replaceAll` semantics.
-/

namespace ApiGen

/-! ## JS character classes -/

/-- JS `\s` for the ASCII range (space, tab, LF, VT, FF, CR). -/
def jsIsSpace (c : Char) : Bool :=
  c = ' ' || c = '\t' || c = '\n' || c = '\x0b' || c = '\x0c' || c = '\r'

/-- JS `\w`: ASCII letters, digits and underscore. -/
def jsIsWord (c : Char) : Bool :=
  (('a' ≤ c && c ≤ 'z') || ('A' ≤ c && c ≤ 'Z') || ('0' ≤ c && c ≤ '9') || c = '_')

/-- Case-insensitive character comparison (the denylist regexes carry the
`i` flag). -/
def charIEq (a b : Char) : Bool := a.toLower = b.toLower

/-! ## Safety Validator (sandbox-executor.ts, `validateCodeSafety`)

Each denylist regex is a sequence of literal characters, `\s*` and `\s+`;
we embed that shape directly. -/

/-- One token of a denylist regex. -/
inductive PatTok where
  | lit (c : Char)
  | wsStar
  | wsPlus
deriving Repr, DecidableEq

/-- Literal characters of a string as pattern tokens. -/
def litToks (s : String) : List PatTok := s.data.map PatTok.lit

/-- Match a token sequence at the head of the character list
(case-insensitively, as all denylist regexes carry the `i` flag).
`\s+ ts` is matched as one whitespace character followed by `\s* ts`,
which is equivalent because `\s`, `\w` and the literals used are
pairwise disjoint, so the greedy whitespace run is canonical. -/
def matchToksAt : List PatTok → List Char → Bool
  | [], _ => true
  | PatTok.lit c :: ts, x :: xs => charIEq x c && matchToksAt ts xs
  | PatTok.lit _ :: _, [] => false
  | PatTok.wsStar :: ts, xs => matchToksAt ts (xs.dropWhile jsIsSpace)
  | PatTok.wsPlus :: ts, x :: xs => jsIsSpace x && matchToksAt ts (xs.dropWhile jsIsSpace)
  | PatTok.wsPlus :: _, [] => false

/-- Does the pattern match at some position of the character list? -/
def toksMatchSomewhere (p : List PatTok) : List Char → Bool
  | [] => matchToksAt p []
  | x :: xs => matchToksAt p (x :: xs) || toksMatchSomewhere p xs

/-- A denylist entry: the regex source text (used in the reported reason)
and its token form. -/
structure Pattern where
  source : String
  toks : List PatTok
deriving Repr, DecidableEq

/-- `pattern.test(code)` for a denylist pattern. -/
def patternTest (p : Pattern) (code : String) : Bool :=
  toksMatchSomewhere p.toks code.data

/-- The fixed denylist of `validateCodeSafety`, in source order. -/
def dangerousPatterns : List Pattern :=
  [ ⟨"require\\s*\\(", litToks "require" ++ [PatTok.wsStar, PatTok.lit '(']⟩
  , ⟨"import\\s+", litToks "import" ++ [PatTok.wsPlus]⟩
  , ⟨"process\\.", litToks "process."⟩
  , ⟨"fs\\.", litToks "fs."⟩
  , ⟨"child_process", litToks "child_process"⟩
  , ⟨"exec\\s*\\(", litToks "exec" ++ [PatTok.wsStar, PatTok.lit '(']⟩
  , ⟨"eval\\s*\\(", litToks "eval" ++ [PatTok.wsStar, PatTok.lit '(']⟩
  , ⟨"Function\\s*\\(", litToks "Function" ++ [PatTok.wsStar, PatTok.lit '(']⟩
  , ⟨"__dirname", litToks "__dirname"⟩
  , ⟨"__filename", litToks "__filename"⟩
  , ⟨"global\\.", litToks "global."⟩
  , ⟨"globalThis\\.", litToks "globalThis."⟩
  ]

/-- Result record of the safety check. -/
structure SafetyResult where
  safe : Bool
  reason : Option String
deriving Repr, DecidableEq

/-- `validateCodeSafety` : scan the denylist in order; the first pattern
that tests positive decides the (unsafe) result. -/
def validateCodeSafety (code : String) : SafetyResult :=
  match dangerousPatterns.find? (fun p => patternTest p code) with
  | some p => ⟨false, some ("Pattern dangereux détecté: " ++ p.source)⟩
  | none => ⟨true, none⟩

/-! ## Function catalog (function-storage.ts) -/

/-- Declared input/output primitive types of a contract. -/
inductive PrimType where
  | string | number | boolean | object | array
deriving Repr, DecidableEq

/-- One declared input of a function contract. -/
structure FunctionInput where
  name : String
  type : PrimType
  required : Option Bool := none
  description : Option String := none
deriving Repr, DecidableEq

/-- Declared output descriptor. -/
structure FunctionOutput where
  type : PrimType
  description : Option String := none
deriving Repr, DecidableEq

/-- A validated function description (body of the create/update routes). -/
structure FunctionDescription where
  name : String
  inputs : List FunctionInput
  logic : String
  output : FunctionOutput
  documentation : Option String := none
deriving Repr, DecidableEq

/-- A stored function record. -/
structure GeneratedFunction where
  name : String
  code : String
  token : String
  createdAt : String
  description : FunctionDescription
deriving Repr, DecidableEq

/-- The catalog: the JSON object of functions.json as an association list
keyed by function name (JS object insertion order preserved). -/
abbrev StoredFunctions := List (String × GeneratedFunction)

/-- `getFunction` : lookup by name (first binding wins; keys are unique in
a JS object). -/
def getFunction : StoredFunctions → String → Option GeneratedFunction
  | [], _ => none
  | (k, f) :: rest, n => if k = n then some f else getFunction rest n

/-- `functionExists`. -/
def functionExists (st : StoredFunctions) (n : String) : Bool :=
  (getFunction st n).isSome

/-- `saveFunction` : JS `functions[name] = data` — replace in place when the
key exists, append otherwise. -/
def saveFunction (st : StoredFunctions) (f : GeneratedFunction) : StoredFunctions :=
  if functionExists st f.name then
    st.map (fun kv => if kv.1 = f.name then (f.name, f) else kv)
  else
    st ++ [(f.name, f)]

/-- `deleteFunction` (the success path; the route checks existence first). -/
def deleteFunction (st : StoredFunctions) (n : String) : StoredFunctions :=
  st.filter (fun kv => kv.1 ≠ n)

/-! ## Creation route (routes/functions.ts, POST /api/functions)

The external collaborators (AI code generator, token generator, clock,
documentation generator) are passed as oracle values: the handler body is
embedded from the point where the generated code is available. -/

/-- Responses of the creation handler that matter to the catalog state. -/
inductive CreateResponse where
  | conflict (name : String)
  | codeRejected (details : Option String)
  | created (name token : String)
deriving Repr, DecidableEq

/-- The creation handler after body validation: duplicate check, safety
gate on the generated code, then token issue / documentation / save. -/
def createFunctionRoute (st : StoredFunctions) (d : FunctionDescription)
    (generatedCode apiToken now doc : String) :
    CreateResponse × StoredFunctions :=
  if functionExists st d.name then
    (CreateResponse.conflict d.name, st)
  else
    let check := validateCodeSafety generatedCode
    if check.safe then
      let finalDoc := match d.documentation with
        | some docu => docu
        | none => doc
      let fd : GeneratedFunction :=
        ⟨d.name, generatedCode, apiToken, now, { d with documentation := some finalDoc }⟩
      (CreateResponse.created d.name apiToken, saveFunction st fd)
    else
      (CreateResponse.codeRejected check.reason, st)

/-! ## Token Authenticator (utils/token-validator.ts, `validateToken`) -/

/-- JS `String.prototype.trim` (whitespace model restricted to `jsIsSpace`). -/
def jsTrim (s : String) : String :=
  ⟨((s.data.dropWhile jsIsSpace).reverse.dropWhile jsIsSpace).reverse⟩

/-- Result record of `validateToken`. -/
structure TokenValidation where
  valid : Bool
  error : Option String
deriving Repr, DecidableEq

def msgFunctionNotFound : String := "Function not found"

def msgTokenRequired : String :=
  "API token required. Provide token via Authorization header: Authorization: Bearer <token>"

def msgBadFormat : String :=
  "Invalid authorization format. Use: Authorization: Bearer <token>"

def msgTokenMissing : String :=
  "Token is missing. Use: Authorization: Bearer <token>"

def msgTokenMismatch : String := "Invalid API token"

/-- The credential presented by a well-formed header:
`authHeader.substring(7).trim()`. -/
def presentedToken (h : String) : String := jsTrim ⟨h.data.drop 7⟩

/-- `validateToken(functionName, request)` — the authorization header is the
only transport field consulted. A missing header and an empty-string header
coincide (JS falsiness of the empty string). -/
def validateToken (st : StoredFunctions) (functionName : String)
    (authHeader : Option String) : TokenValidation :=
  match getFunction st functionName with
  | none => ⟨false, some msgFunctionNotFound⟩
  | some f =>
    match authHeader with
    | none => ⟨false, some msgTokenRequired⟩
    | some h =>
      if h = "" then ⟨false, some msgTokenRequired⟩
      else if ("Bearer ".data).isPrefixOf h.data then
        let token := presentedToken h
        if token = "" then ⟨false, some msgTokenMissing⟩
        else if token ≠ f.token then ⟨false, some msgTokenMismatch⟩
        else ⟨true, none⟩
      else ⟨false, some msgBadFormat⟩

/-! ## Runtime values (JS values crossing the sandbox boundary) -/

/-- JS-like runtime values, shallowly embedded (numbers as integers; no
floating point is needed by any claim). -/
inductive Value where
  | undef
  | nullv
  | bool (b : Bool)
  | num (n : Int)
  | str (s : String)
  | arr (xs : List Value)
  | obj (fields : List (String × Value))
deriving Repr

/-! ## Execution Telemetry Recorder (analytics-service.ts) -/

inductive ExecStatus where
  | success
  | error
deriving Repr, DecidableEq

/-- One execution log entry. -/
structure ExecutionLog where
  id : String
  functionName : String
  timestamp : String
  duration : Nat
  status : ExecStatus
  inputs : List (String × Value)
  output : Option Value
  error : Option String
deriving Repr

/-- `logExecution` restricted to one function's log file (the per-function
JSON array, most recent first): `unshift` then cap at 100. -/
def logExecution (newLog : ExecutionLog) (logs : List ExecutionLog) :
    List ExecutionLog :=
  let logs1 := newLog :: logs
  if logs1.length > 100 then logs1.take 100 else logs1

/-- `getLogs` on the same file: `logs.slice(0, limit)`. -/
def getLogs (logs : List ExecutionLog) (limit : Nat) : List ExecutionLog :=
  logs.take limit

/-- A schematic log entry used to instantiate C6 concretely. -/
def sampleEntry (i : Nat) : ExecutionLog :=
  ⟨toString i, "f1", "2026-01-01", i, ExecStatus.success, [], none, none⟩

/-! ## Update route (routes/functions.ts, PUT /api/functions/:functionName) -/

/-- Responses of the update handler. -/
inductive UpdateResponse where
  | notFound (name : String)
  | conflict (name : String)
  | codeRejected (details : Option String)
  | updated (name token : String)
deriving Repr, DecidableEq

/-- Documentation resolution of the update handler: regenerate (oracle
`doc`) when name, logic, inputs or output changed; otherwise keep the
supplied or existing documentation. -/
def resolveDoc (d : FunctionDescription) (existing : GeneratedFunction)
    (doc : String) : String :=
  if d.name ≠ existing.description.name
      ∨ d.logic ≠ existing.description.logic
      ∨ d.inputs ≠ existing.description.inputs
      ∨ d.output ≠ existing.description.output then doc
  else match d.documentation with
    | some docu => docu
    | none => match existing.description.documentation with
      | some docu => docu
      | none => ""

/-- Body of the update handler once the existing record has been found. -/
def updateWithExisting (st : StoredFunctions) (functionName : String)
    (d : FunctionDescription) (generatedCode doc : String)
    (existing : GeneratedFunction) : UpdateResponse × StoredFunctions :=
  if d.name ≠ functionName ∧ functionExists st d.name = true then
    (UpdateResponse.conflict d.name, st)
  else if (d.name ≠ functionName ∨ d.logic ≠ existing.description.logic)
      ∧ (validateCodeSafety generatedCode).safe = false then
    (UpdateResponse.codeRejected (validateCodeSafety generatedCode).reason, st)
  else
    (UpdateResponse.updated d.name existing.token,
      saveFunction
        (if d.name ≠ functionName then deleteFunction st functionName else st)
        ⟨d.name,
          (if d.name ≠ functionName ∨ d.logic ≠ existing.description.logic
            then generatedCode else existing.code),
          existing.token, existing.createdAt,
          { d with documentation := some (resolveDoc d existing doc) }⟩)

def updateFunctionRoute (st : StoredFunctions) (functionName : String)
    (d : FunctionDescription) (generatedCode doc : String) :
    UpdateResponse × StoredFunctions :=
  match getFunction st functionName with
  | none => (UpdateResponse.notFound functionName, st)
  | some existing => updateWithExisting st functionName d generatedCode doc existing

/-! ## Source Normalizer (sandbox-executor.ts, lines 20–55)

Each `replaceAll` pass is embedded as a left-to-right scanner: at every
position the pass either fires (emitting a replacement and resuming after
the consumed text, as `replaceAll` does) or copies one character. The JS
regexes involved are backtracking-free on their own character classes
(whitespace, word characters and the anchor literals are pairwise
disjoint), so each is realized by a deterministic matcher. -/

/-- `jsTrim` on character lists. -/
def jsTrimL (s : List Char) : List Char :=
  ((s.dropWhile jsIsSpace).reverse.dropWhile jsIsSpace).reverse

/-- Strip an exact (case-sensitive) literal prefix. -/
def stripLits : List Char → List Char → Option (List Char)
  | [], s => some s
  | _ :: _, [] => none
  | c :: cs, x :: xs => if x = c then stripLits cs xs else none

/-- First alternative of a regex alternation that matches a prefix. -/
def matchKw : List (List Char) → List Char → Option (List Char × List Char)
  | [], _ => none
  | kw :: rest, s =>
    match stripLits kw s with
    | some r => some (kw, r)
    | none => matchKw rest s

/-- Scanner scaffold for a non-anchored `replaceAll` pass. The fuel is the
input length; every pattern below consumes at least one character per
fire, so this never runs out before the end of the input. -/
def scanPlain (tryM : List Char → Option (List Char × List Char)) :
    Nat → List Char → List Char
  | 0, s => s
  | fuel + 1, s =>
    match tryM s with
    | some (repl, rest) => repl ++ scanPlain tryM fuel rest
    | none =>
      match s with
      | [] => []
      | c :: cs => c :: scanPlain tryM fuel cs

/-- Scanner scaffold for a `^`-anchored multiline (`m` flag) pass: the
pattern is only tried at the string start or right after a newline; the
matcher reports whether scanning resumes at a line start. -/
def scanML (tryM : List Char → Option (List Char × List Char × Bool)) :
    Nat → Bool → List Char → List Char
  | 0, _, s => s
  | fuel + 1, atStart, s =>
    match (if atStart then tryM s else none) with
    | some (repl, rest, flag) => repl ++ scanML tryM fuel flag rest
    | none =>
      match s with
      | [] => []
      | c :: cs => c :: scanML tryM fuel (c = '\n') cs

/-- Pass 1 matcher — `(\w+)\s*\?\s*:` replaced by `$1:` (optional-property
markers). -/
def tryStripOptionalMark (s : List Char) : Option (List Char × List Char) :=
  match s.takeWhile jsIsWord with
  | [] => none
  | word =>
    match (s.dropWhile jsIsWord).dropWhile jsIsSpace with
    | '?' :: r2 =>
      match r2.dropWhile jsIsSpace with
      | ':' :: r3 => some (word ++ [':'], r3)
      | _ => none
    | _ => none

/-- The alternation `(function|const|let|var)`, in regex order. -/
def declKwList : List (List Char) :=
  ["function".data, "const".data, "let".data, "var".data]

/-- Pass 2 matcher — `^export\s+(function|const|let|var)\s+` replaced by
`$1 ` (multiline). Besides replacement and rest it reports whether the
last consumed character was a newline (`\s+` may span lines). -/
def tryStripExportDecl (s : List Char) : Option (List Char × List Char × Bool) :=
  match stripLits "export".data s with
  | none => none
  | some r1 =>
    match r1 with
    | [] => none
    | c :: r2 =>
      if jsIsSpace c then
        match matchKw declKwList (r2.dropWhile jsIsSpace) with
        | some (kw, r4) =>
          match r4 with
          | [] => none
          | d :: r5 =>
            if jsIsSpace d then
              some (kw ++ [' '], r5.dropWhile jsIsSpace,
                (r5.takeWhile jsIsSpace).getLastD d = '\n')
            else none
        | none => none
      else none

/-- Pass 3 matcher — `^export\s*\{` replaced by `{` (multiline). -/
def tryStripExportBrace (s : List Char) : Option (List Char × List Char × Bool) :=
  match stripLits "export".data s with
  | none => none
  | some r1 =>
    match r1.dropWhile jsIsSpace with
    | '\x7b' :: r2 => some (['\x7b'], r2, false)
    | _ => none

/-- First character of a TS type in the return-type regex: `[a-zA-Z_$]`. -/
def isTypeStart (c : Char) : Bool :=
  ('a' ≤ c && c ≤ 'z') || ('A' ≤ c && c ≤ 'Z') || c = '_' || c = '$'

/-- Subsequent type characters: `[a-zA-Z0-9_$<>[\],\s|&]`. -/
def isTypeChar (c : Char) : Bool :=
  isTypeStart c || ('0' ≤ c && c ≤ '9') || c = '<' || c = '>' || c = '[' ||
    c = ']' || c = ',' || jsIsSpace c || c = '|' || c = '&'

/-- Pass 4 matcher — `\)\s*:\s*[a-zA-Z_$][a-zA-Z0-9_$<>[\],\s|&]*\s*\{`
replaced by `) {` (return types of brace-bodied functions). The greedy
class run must stop exactly at the opening brace (the brace is not in the
class, and any shorter split leaves a class character where the brace is
required). -/
def tryStripReturnType (s : List Char) : Option (List Char × List Char) :=
  match s with
  | ')' :: r1 =>
    match r1.dropWhile jsIsSpace with
    | ':' :: r2 =>
      match r2.dropWhile jsIsSpace with
      | [] => none
      | c :: r3 =>
        if isTypeStart c then
          match r3.dropWhile isTypeChar with
          | '\x7b' :: r4 => some ([')', ' ', '\x7b'], r4)
          | _ => none
        else none
    | _ => none
  | _ => none

/-- `params.split(',')` — plain comma split, empty pieces preserved. -/
def splitOnComma : List Char → List Char → List (List Char)
  | acc, [] => [acc.reverse]
  | acc, c :: cs =>
    if c = ',' then acc.reverse :: splitOnComma [] cs
    else splitOnComma (c :: acc) cs

/-- `trimmed.indexOf(':')`. -/
def idxOfColon : List Char → Option Nat
  | [] => none
  | c :: cs => if c = ':' then some 0 else (idxOfColon cs).map (· + 1)

/-- The per-parameter callback of passes 5 and 6: trim, and cut at the
first colon when it is at a positive index (re-trimming the name). -/
def paramName (p : List Char) : List Char :=
  match idxOfColon (jsTrimL p) with
  | some i => if 0 < i then jsTrimL ((jsTrimL p).take i) else jsTrimL p
  | none => jsTrimL p

/-- `paramNames.join(', ')`. -/
def joinParams : List (List Char) → List Char
  | [] => []
  | [x] => x
  | x :: xs => x ++ [',', ' '] ++ joinParams xs

/-- The parameter-list rewriting shared by passes 5 and 6. -/
def processParams (content : List Char) : List Char :=
  joinParams ((splitOnComma [] content).map paramName)

/-- Pass 5 matcher — `function\s+\w+\s*\(([^)]+)\)` with the callback that
strips `name: type` down to `name`; everything outside the parenthesized
group is reproduced verbatim (`match.replace` only replaces the group). -/
def tryStripFnParams (s : List Char) : Option (List Char × List Char) :=
  match stripLits "function".data s with
  | none => none
  | some r1 =>
    match r1 with
    | [] => none
    | c :: r2 =>
      if jsIsSpace c then
        match (r2.dropWhile jsIsSpace).takeWhile jsIsWord with
        | [] => none
        | word =>
          let r3 := (r2.dropWhile jsIsSpace).dropWhile jsIsWord
          match r3.dropWhile jsIsSpace with
          | '(' :: r4 =>
            match r4.takeWhile (fun x => x ≠ ')') with
            | [] => none
            | content =>
              match r4.dropWhile (fun x => x ≠ ')') with
              | ')' :: r5 =>
                some ("function".data ++ [c] ++ r2.takeWhile jsIsSpace ++ word ++
                  r3.takeWhile jsIsSpace ++ ['('] ++ processParams content ++ [')'], r5)
              | _ => none
          | _ => none
      else none

/-- Pass 6 matcher — `\(([^)]+)\)\s*:` with the same callback; note the
matched trailing colon is dropped by the replacement. -/
def tryStripArrowParams (s : List Char) : Option (List Char × List Char) :=
  match s with
  | '(' :: r1 =>
    match r1.takeWhile (fun x => x ≠ ')') with
    | [] => none
    | content =>
      match r1.dropWhile (fun x => x ≠ ')') with
      | ')' :: r2 =>
        match r2.dropWhile jsIsSpace with
        | ':' :: r3 => some (['('] ++ processParams content ++ [')'], r3)
        | _ => none
      | _ => none
  | _ => none

/-- The alternation `(const|let|var)`, in regex order. -/
def varKwList : List (List Char) := ["const".data, "let".data, "var".data]

/-- Pass 7 matcher — `(const|let|var)\s+(\w+)\s*:\s*[^=]+=` replaced by
`$1 $2 =` (variable type annotations). -/
def tryStripVarType (s : List Char) : Option (List Char × List Char) :=
  match matchKw varKwList s with
  | none => none
  | some (kw, r1) =>
    match r1 with
    | [] => none
    | c :: r2 =>
      if jsIsSpace c then
        match (r2.dropWhile jsIsSpace).takeWhile jsIsWord with
        | [] => none
        | word =>
          let r3 := (r2.dropWhile jsIsSpace).dropWhile jsIsWord
          match r3.dropWhile jsIsSpace with
          | ':' :: r4 =>
            match r4.takeWhile (fun x => x ≠ '=') with
            | [] => none
            | _content =>
              match r4.dropWhile (fun x => x ≠ '=') with
              | '=' :: r5 => some (kw ++ [' '] ++ word ++ [' ', '='], r5)
              | _ => none
          | _ => none
      else none

/-- The full normalization chain of `executeInSandbox` (trim, then the
seven `replaceAll` passes, in source order). -/
def normalizeL (s : List Char) : List Char :=
  let s0 := jsTrimL s
  let s1 := scanPlain tryStripOptionalMark s0.length s0
  let s2 := scanML tryStripExportDecl s1.length true s1
  let s3 := scanML tryStripExportBrace s2.length true s2
  let s4 := scanPlain tryStripReturnType s3.length s3
  let s5 := scanPlain tryStripFnParams s4.length s4
  let s6 := scanPlain tryStripArrowParams s5.length s5
  scanPlain tryStripVarType s6.length s6

/-- Normalization on strings. -/
def normalizeCode (functionCode : String) : String :=
  ⟨normalizeL functionCode.data⟩

/-! ## Sandboxed Executor (sandbox-executor.ts, `executeInSandbox`)

The generated snippet itself is arbitrary JS; what `executeInSandbox` does
with it is: normalize it, declare it inside the wrapper, look up the
binding named `functionName`, and call it with `args.<key>` for each key
of the inputs object. The effect of declaring the snippet is abstracted as
an oracle from the normalized source to its top-level bindings, and a
call's behaviour records its synchronous duration and its outcome (value,
promise, or thrown error), so that the vm2 timeout and the promise
handling can be stated.

In the French messages below the typographic apostrophe `’` stands for the
ASCII apostrophe of the source strings. -/

/-- A pending asynchronous computation (a returned Promise): its
settlement delay and its eventual result (resolution or rejection). -/
structure AsyncComp where
  delayMs : Nat
  result : Except String Value

/-- Outcome of evaluating the wrapper script synchronously. -/
inductive CallResult where
  | value (v : Value)
  | promise (p : AsyncComp)
  | throwMsg (msg : String)

/-- Behaviour of one synchronous evaluation: wall-clock time consumed and
outcome. -/
structure CallBehavior where
  syncMs : Nat
  result : CallResult

/-- A top-level binding produced by declaring the snippet. -/
inductive Binding where
  | callable (impl : List Value → CallBehavior)
  | notCallable (v : Value)

/-- Oracle: the top-level bindings produced by declaring a normalized
source snippet inside the wrapper. -/
def DeclOracle := String → List (String × Binding)

def lookupBinding : List (String × Binding) → String → Option Binding
  | [], _ => none
  | (k, b) :: rest, n => if k = n then some b else lookupBinding rest n

/-- JS property read `obj.k` (absent properties read as `undefined`). -/
def readProp (fields : List (String × Value)) (k : String) : Value :=
  match fields with
  | [] => Value.undef
  | (k2, v) :: rest => if k2 = k then v else readProp rest k

/-- The positional argument list the wrapper builds:
`${functionName}(${inputNames.map(n => 'args.' + n).join(', ')})` with
`inputNames = Object.keys(inputs)` — one `args.<key>` read per key of the
validated inputs object, in object key order. -/
def sandboxArgs (inputs : List (String × Value)) : List Value :=
  inputs.map (fun kv => readProp inputs kv.1)

/-- Evaluating the wrapper: look up `functionName` among the declared
bindings (`typeof` check), then either call it with the `args` reads or
throw the not-found error. -/
def wrapperCall (bindings : List (String × Binding)) (functionName : String)
    (inputs : List (String × Value)) : CallBehavior :=
  match lookupBinding bindings functionName with
  | some (Binding.callable impl) => impl (sandboxArgs inputs)
  | _ => ⟨0, CallResult.throwMsg
      ("Fonction " ++ functionName ++ " non trouvée dans le code généré")⟩

def SANDBOX_TIMEOUT : Nat := 5000

/-- Result of `vm.run` when it does not throw. -/
inductive RunOutcome where
  | value (v : Value)
  | promise (p : AsyncComp)

/-- Modelled from the spec and the vm2 documentation (vm2 is an external
dependency, not part of this repository): `new VM({timeout}).run(script)`
aborts the evaluation once its synchronous part exceeds the timeout,
throwing the `Script execution timed out` error; a returned Promise
crosses the boundary as a value without being awaited (the vm2 timeout
does not cover asynchronous continuations). -/
def vmRun (timeoutMs : Nat) (b : CallBehavior) : Except String RunOutcome :=
  if timeoutMs < b.syncMs then
    Except.error ("Script execution timed out after " ++ toString timeoutMs ++ "ms.")
  else match b.result with
    | CallResult.value v => Except.ok (RunOutcome.value v)
    | CallResult.promise p => Except.ok (RunOutcome.promise p)
    | CallResult.throwMsg m => Except.error m

inductive ExecErrorKind where
  | timeout
  | unauthorizedAccess
  | runtimeError
deriving Repr, DecidableEq

structure ExecError where
  kind : ExecErrorKind
  message : String
deriving Repr, DecidableEq

/-- `msg.includes(needle)`. -/
def isSubstrOf (needle : List Char) : List Char → Bool
  | [] => (stripLits needle []).isSome
  | c :: cs => (stripLits needle (c :: cs)).isSome || isSubstrOf needle cs

/-- The catch-clause of `executeInSandbox`: classify the thrown message by
substring — timeout, unauthorized access (`is not defined`), or generic
runtime error. -/
def classifyVmError (functionName msg : String) : ExecError :=
  if isSubstrOf "Script execution timed out".data msg.data then
    ⟨ExecErrorKind.timeout,
      "L’exécution de " ++ functionName ++ " a dépassé le temps limite de 5000ms"⟩
  else if isSubstrOf "is not defined".data msg.data then
    ⟨ExecErrorKind.unauthorizedAccess,
      "Accès non autorisé dans " ++ functionName ++ ": " ++ msg⟩
  else
    ⟨ExecErrorKind.runtimeError,
      "Erreur d’exécution dans " ++ functionName ++ ": " ++ msg⟩

/-- A value together with the wall-clock milliseconds spent producing it. -/
structure Timed (α : Type) where
  ms : Nat
  val : α

/-- `executeInSandbox`: normalize, declare, look up, call, with the vm2
timeout on the synchronous evaluation; elapsed time is the synchronous
time capped by the timeout (an aborted run stops at the timeout). -/
def executeInSandbox (decl : DeclOracle) (functionName functionCode : String)
    (inputs : List (String × Value)) : Timed (Except ExecError RunOutcome) :=
  let b := wrapperCall (decl (normalizeCode functionCode)) functionName inputs
  ⟨min b.syncMs SANDBOX_TIMEOUT,
    match vmRun SANDBOX_TIMEOUT b with
    | Except.ok out => Except.ok out
    | Except.error msg => Except.error (classifyVmError functionName msg)⟩

/-- `executeGeneratedFunction` (route-register.ts): look up the stored
function, re-check safety, run the sandbox, and await a returned Promise
— the await happens after `vm.run` returned and is not covered by any
timeout, so its delay adds to the total latency unboundedly. -/
def executeGeneratedFunction (decl : DeclOracle) (st : StoredFunctions)
    (functionName : String) (inputs : List (String × Value)) :
    Timed (Except String Value) :=
  match getFunction st functionName with
  | none => ⟨0, Except.error ("Fonction " ++ functionName ++ " non trouvée")⟩
  | some f =>
    if (validateCodeSafety f.code).safe = false then
      ⟨0, Except.error ("Erreur d’exécution: " ++ "Code non sécurisé détecté: "
          ++ ((validateCodeSafety f.code).reason.getD "undefined"))⟩
    else
      let r := executeInSandbox decl functionName f.code inputs
      match r.val with
      | Except.error e => ⟨r.ms, Except.error ("Erreur d’exécution: " ++ e.message)⟩
      | Except.ok (RunOutcome.value v) => ⟨r.ms, Except.ok v⟩
      | Except.ok (RunOutcome.promise p) =>
        match p.result with
        | Except.ok v => ⟨r.ms + p.delayMs, Except.ok v⟩
        | Except.error m =>
          ⟨r.ms + p.delayMs, Except.error ("Erreur d’exécution: " ++ m)⟩

/-! ## Input Schema Builder (route-register.ts, `createInputSchema`) -/

/-- The Zod primitive check derived for a declared input type. -/
def zodCheckType (t : PrimType) (v : Value) : Bool :=
  match t, v with
  | PrimType.string, Value.str _ => true
  | PrimType.number, Value.num _ => true
  | PrimType.boolean, Value.bool _ => true
  | PrimType.object, Value.obj _ => true
  | PrimType.array, Value.arr _ => true
  | _, _ => false

def lookupField : List (String × Value) → String → Option Value
  | [], _ => none
  | (k, v) :: rest, n => if k = n then some v else lookupField rest n

/-- Fields of the payload that fail the schema: a declared input that is
present with the wrong primitive type, or absent while required
(`input.required !== false`). -/
def parseErrors (contract : List FunctionInput)
    (payload : List (String × Value)) : List String :=
  contract.filterMap (fun i =>
    match lookupField payload i.name with
    | some v => if zodCheckType i.type v then none else some i.name
    | none => if i.required = some false then none else some i.name)

/-- The validated inputs object: the declared inputs present in the
payload, in declaration order; unknown payload keys are stripped
(Zod object default), omitted optional inputs yield no key. -/
def parsedInputs (contract : List FunctionInput)
    (payload : List (String × Value)) : List (String × Value) :=
  contract.filterMap (fun i =>
    match lookupField payload i.name with
    | some v => some (i.name, v)
    | none => none)

/-- `inputSchema.parse(request.body)`. -/
def zodParse (contract : List FunctionInput) (payload : List (String × Value)) :
    Except (List String) (List (String × Value)) :=
  if parseErrors contract payload = [] then
    Except.ok (parsedInputs contract payload)
  else Except.error (parseErrors contract payload)

/-! ## Invocation Orchestrator: the two handlers -/

inductive ApiResponse where
  | notFoundRoute
  | unauthorized (message : Option String)
  | notFoundFn (msg : String)
  | codeBlocked (details : Option String)
  | validationFailed (fields : List String)
  | serverError (msg : String)
  | ok (v : Value)

/-- The data handed to `logExecution` by the handlers' `finally` blocks. -/
structure LogData where
  functionName : String
  duration : Nat
  status : ExecStatus
  inputs : List (String × Value)
  output : Option Value
  error : Option String

/-- The registered per-function route handler (route-register.ts):
authenticate, Zod-validate, execute via `executeGeneratedFunction`, and
always produce one telemetry entry describing the outcome (its `finally`
block runs on every path). `contract` is the input contract captured when
the route was registered. -/
def routeHandler (decl : DeclOracle) (st : StoredFunctions)
    (functionName : String) (contract : List FunctionInput)
    (authHeader : Option String) (body : List (String × Value)) :
    ApiResponse × LogData :=
  let tv := validateToken st functionName authHeader
  if tv.valid = false then
    (ApiResponse.unauthorized tv.error,
     ⟨functionName, 0, ExecStatus.error, body, none, some "Unauthorized"⟩)
  else
    match zodParse contract body with
    | Except.error fields =>
      (ApiResponse.validationFailed fields,
       ⟨functionName, 0, ExecStatus.error, body, none, some "Validation error"⟩)
    | Except.ok validated =>
      let r := executeGeneratedFunction decl st functionName validated
      match r.val with
      | Except.ok v =>
        (ApiResponse.ok v,
         ⟨functionName, r.ms, ExecStatus.success, body, some v, none⟩)
      | Except.error msg =>
        (ApiResponse.serverError msg,
         ⟨functionName, r.ms, ExecStatus.error, body, none, some msg⟩)

def systemRoutes : List String := ["functions", "generate-example", "analytics", "logs"]

/-- The catch-all `POST /api/:functionName` handler (index.ts): the
system-route rejection happens before the logging scope; afterwards every
path produces a telemetry entry (the function-not-found path logs with
status `success`, faithful to the source, which never flips `status`
there). -/
def catchAllHandler (decl : DeclOracle) (st : StoredFunctions)
    (functionName : String) (authHeader : Option String)
    (body : List (String × Value)) : ApiResponse × Option LogData :=
  if functionName ∈ systemRoutes then (ApiResponse.notFoundRoute, none)
  else
    let tv := validateToken st functionName authHeader
    if tv.valid = false then
      (ApiResponse.unauthorized tv.error,
       some ⟨functionName, 0, ExecStatus.error, body, none, some "Unauthorized"⟩)
    else
      match getFunction st functionName with
      | none =>
        (ApiResponse.notFoundFn ("Fonction " ++ functionName ++ " non trouvée"),
         some ⟨functionName, 0, ExecStatus.success, body, none, none⟩)
      | some f =>
        if (validateCodeSafety f.code).safe = false then
          (ApiResponse.codeBlocked (validateCodeSafety f.code).reason,
           some ⟨functionName, 0, ExecStatus.error, body, none,
             some ("Code non sécurisé: "
               ++ ((validateCodeSafety f.code).reason.getD "undefined"))⟩)
        else
          match zodParse f.description.inputs body with
          | Except.error fields =>
            (ApiResponse.validationFailed fields,
             some ⟨functionName, 0, ExecStatus.error, body, none,
               some "Validation error"⟩)
          | Except.ok validated =>
            let r := executeInSandbox decl functionName f.code validated
            match r.val with
            | Except.error e =>
              (ApiResponse.serverError e.message,
               some ⟨functionName, r.ms, ExecStatus.error, body, none,
                 some e.message⟩)
            | Except.ok (RunOutcome.value v) =>
              (ApiResponse.ok v,
               some ⟨functionName, r.ms, ExecStatus.success, body, some v, none⟩)
            | Except.ok (RunOutcome.promise p) =>
              match p.result with
              | Except.ok v =>
                (ApiResponse.ok v,
                 some ⟨functionName, r.ms + p.delayMs, ExecStatus.success, body,
                   some v, none⟩)
              | Except.error m =>
                (ApiResponse.serverError m,
                 some ⟨functionName, r.ms + p.delayMs, ExecStatus.error, body,
                   none, some m⟩)

/-- The fire-and-forget recording step (`import(...).then(m =>
m.logExecution(...)).catch(...)`): the recorder runs on the already
computed entry, after and independently of the response; its outcome is
never consulted. -/
def respondWithRecorder (recorder : LogData → Except String Unit)
    (h : ApiResponse × LogData) : ApiResponse × Except String Unit :=
  (h.1, recorder h.2)

/-- A stored record whose code would fail the safety scan (as if mutated
in storage), used to instantiate C2 concretely. -/
def gRec : GeneratedFunction :=
  ⟨"g", "return eval(x)", "api_g", "t0",
    ⟨"g", [], "logic", ⟨PrimType.number, none⟩, none⟩⟩

/-- A benign stored record with one required and one optional input. -/
def hRec : GeneratedFunction :=
  ⟨"h", "function h(a) - body", "api_h", "t0",
    ⟨"h", [⟨"a", PrimType.number, none, none⟩], "logic",
      ⟨PrimType.number, none⟩, none⟩⟩

/-! ## C4: binding lookup and positional invocation -/

/-- The argument list the claim describes (its reading of §4.3): the
declared input names, in the contract's declared order — the generated
function's own parameter order — each read from the validated inputs
namespace (missing names reading as `undefined`). -/
def claimedArgs (contract : List FunctionInput)
    (validated : List (String × Value)) : List Value :=
  contract.map (fun i => readProp validated i.name)

/-- Contract with an optional `a` before a required `b`, exposing the
positional shift. -/
def c4contract : List FunctionInput :=
  [⟨"a", PrimType.number, some false, none⟩, ⟨"b", PrimType.number, none, none⟩]

/-- Sandbox oracle whose declared function returns its own argument list,
so the invocation's positional arguments are observable. -/
def dCap : DeclOracle := fun _ =>
  [("fx", Binding.callable (fun args => ⟨0, CallResult.value (Value.arr args)⟩))]

/-! ## C3: the timeout and the asynchronous continuation -/

/-- Sandbox oracle whose function immediately returns a promise that
settles with `42` after `10^9` ms. -/
def dInf : DeclOracle := fun _ =>
  [("f", Binding.callable (fun _ =>
    ⟨0, CallResult.promise ⟨1000000000, Except.ok (Value.num 42)⟩⟩))]

/-- Sandbox oracle whose function loops synchronously past the timeout. -/
def dSlow : DeclOracle := fun _ =>
  [("f", Binding.callable (fun _ => ⟨10000, CallResult.value (Value.num 1)⟩))]

/-- A benign stored record for the timeout experiments. -/
def fRec : GeneratedFunction :=
  ⟨"f", "function f(n) - body", "api_f", "t0",
    ⟨"f", [], "logic", ⟨PrimType.number, none⟩, none⟩⟩

/-! ## C8: idempotence of normalization

The normalization passes are `replaceAll` rewrites; a snippet "that used
only the stripped type syntax" is one whose single normalization reaches a
normal form: every pass leaves the normalized output unchanged (each
stripping pass either no longer matches, or rewrites an already-canonical
parameter list to itself). Under that hypothesis, idempotence reduces to
the one non-trivial unconditional fact proved here: the output of the
normalization chain is already trimmed (no pass can introduce leading or
trailing whitespace on a trimmed input), so the second run's initial
`trim` is the identity and the passes fix their input by hypothesis. -/

/-- The first character, when present, is not whitespace. -/
def headNonWs (s : List Char) : Prop :=
  ∀ c, s.head? = some c → jsIsSpace c = false

/-- The last character, when present, is not whitespace. -/
def lastNonWs (s : List Char) : Prop :=
  ∀ c, s.getLast? = some c → jsIsSpace c = false

/-- The obligations a plain pass matcher satisfies: it never fires on the
empty input, its replacements are nonempty, start with a non-whitespace
character, leave a suffix of the input to continue on, and — when a match
consumes the input to its end and the input did not end in whitespace —
end with a non-whitespace character. -/
structure PassOk (tryM : List Char → Option (List Char × List Char)) : Prop where
  nil_none : tryM [] = none
  repl_ne : ∀ s repl rest, tryM s = some (repl, rest) → repl ≠ []
  repl_head : ∀ s repl rest, tryM s = some (repl, rest) → headNonWs repl
  suff : ∀ s repl rest, tryM s = some (repl, rest) → rest <:+ s
  repl_last : ∀ s repl rest, tryM s = some (repl, rest) → rest = [] →
    lastNonWs s → lastNonWs repl

/-- Same obligations for a multiline (anchored) pass matcher. -/
structure PassOkML (tryM : List Char → Option (List Char × List Char × Bool)) : Prop where
  nil_none : tryM [] = none
  repl_ne : ∀ s repl rest flag, tryM s = some (repl, rest, flag) → repl ≠ []
  repl_head : ∀ s repl rest flag, tryM s = some (repl, rest, flag) → headNonWs repl
  suff : ∀ s repl rest flag, tryM s = some (repl, rest, flag) → rest <:+ s
  repl_last : ∀ s repl rest flag, tryM s = some (repl, rest, flag) → rest = [] →
    lastNonWs s → lastNonWs repl

/-- The seven passes as functions (fuel instantiated as in `normalizeL`). -/
def passOptionalMark (s : List Char) : List Char :=
  scanPlain tryStripOptionalMark s.length s

def passExportDecl (s : List Char) : List Char :=
  scanML tryStripExportDecl s.length true s

def passExportBrace (s : List Char) : List Char :=
  scanML tryStripExportBrace s.length true s

def passReturnType (s : List Char) : List Char :=
  scanPlain tryStripReturnType s.length s

def passFnParams (s : List Char) : List Char :=
  scanPlain tryStripFnParams s.length s

def passArrowParams (s : List Char) : List Char :=
  scanPlain tryStripArrowParams s.length s

def passVarType (s : List Char) : List Char :=
  scanPlain tryStripVarType s.length s

/-! ## Theorems -/

/-! ## Generic find-first lemma for the denylist scan -/

theorem find?_eq_get_of_first {α : Type} (p : α → Bool) (l : List α) (i : Nat)
    (hi : i < l.length) (hp : p (l.get ⟨i, hi⟩) = true)
    (hfirst : ∀ j (hj : j < l.length), j < i → p (l.get ⟨j, hj⟩) = false) :
    l.find? p = some (l.get ⟨i, hi⟩) := by
  induction l generalizing i with
  | nil => simp at hi
  | cons a as ih =>
    cases i with
    | zero =>
      simp only [List.get] at hp
      simp [List.find?, hp]
    | succ n =>
      have ha : p a = false := by
        have := hfirst 0 (by simp) (Nat.succ_pos n)
        simpa using this
      simp only [List.find?, ha]
      exact ih n (Nat.lt_of_succ_lt_succ hi) hp
        (fun j hj hlt => by
          have := hfirst (j + 1) (Nat.succ_lt_succ hj) (Nat.succ_lt_succ hlt)
          simpa using this)

/-- C1: a snippet matching any denylist pattern is reported unsafe, the
first matching pattern (in denylist order) names the reason, a snippet
matching no pattern is reported safe, and a creation request whose
generated code fails the check leaves the catalog unchanged and is
answered with a rejection carrying that reason. -/
theorem C1_safety_validator_and_creation_gate (code : String) :
    ((validateCodeSafety code).safe = true ↔
      ∀ p ∈ dangerousPatterns, patternTest p code = false)
    ∧ (∀ i (hi : i < dangerousPatterns.length),
        patternTest (dangerousPatterns.get ⟨i, hi⟩) code = true →
        (∀ j (hj : j < dangerousPatterns.length), j < i →
          patternTest (dangerousPatterns.get ⟨j, hj⟩) code = false) →
        validateCodeSafety code =
          ⟨false, some ("Pattern dangereux détecté: "
            ++ (dangerousPatterns.get ⟨i, hi⟩).source)⟩)
    ∧ (∀ st d apiToken now doc, (validateCodeSafety code).safe = false →
        createFunctionRoute st d code apiToken now doc =
          if functionExists st d.name then (CreateResponse.conflict d.name, st)
          else (CreateResponse.codeRejected (validateCodeSafety code).reason, st)) := by
  refine ⟨?_, ?_, ?_⟩
  · unfold validateCodeSafety
    cases hfind : dangerousPatterns.find? (fun p => patternTest p code) with
    | none =>
      constructor
      · intro _ p hp
        simpa using List.find?_eq_none.mp hfind p hp
      · intro _
        trivial
    | some q =>
      constructor
      · intro h
        exact absurd h (by simp)
      · intro hall
        exfalso
        have hpq := List.find?_some hfind
        rw [hall q (List.mem_of_find?_eq_some hfind)] at hpq
        exact Bool.noConfusion hpq
  · intro i hi hp hfirst
    unfold validateCodeSafety
    rw [find?_eq_get_of_first (fun p => patternTest p code) dangerousPatterns i hi
      (by simpa using hp) (fun j hj hlt => by simpa using hfirst j hj hlt)]
  · intro st d apiToken now doc hbad
    unfold createFunctionRoute
    by_cases hex : functionExists st d.name
    · simp [hex]
    · simp [hex, hbad]

/-- Witness for C1 at concrete inputs: `eval(x)` is caught by the
`eval\s*(` pattern (index 6) and creation with it is rejected with the
catalog unchanged, while a benign snippet passes every pattern. -/
theorem C1_safety_validator_and_creation_gate_witness :
    validateCodeSafety "return eval(x)" =
      ⟨false, some ("Pattern dangereux détecté: " ++ "eval\\s*\\(")⟩
    ∧ validateCodeSafety "function f(a) \x7b return a + 1; \x7d" = ⟨true, none⟩
    ∧ createFunctionRoute [] ⟨"f", [], "double it", ⟨PrimType.number, none⟩, none⟩
        "return eval(x)" "api_t" "2026-01-01" "doc" =
        (CreateResponse.codeRejected
          (some ("Pattern dangereux détecté: " ++ "eval\\s*\\(")), []) := by
  have h := C1_safety_validator_and_creation_gate "return eval(x)"
  have h6 := h.2.1 6 (by decide) (by decide) (by decide)
  exact ⟨h6.trans (by decide), by decide, by decide⟩

/-- C5: with the record present (and its stored token nonempty, as every
issued token is), authentication succeeds iff the authorization header is
present, carries the `Bearer ` prefix, and the presented token equals the
stored token exactly; each of the four failure cases yields its own stable
reason, and the four reasons are pairwise distinct. -/
theorem C5_token_authentication (st : StoredFunctions) (name : String)
    (f : GeneratedFunction) (hf : getFunction st name = some f)
    (hne : f.token ≠ "") (authHeader : Option String) :
    ((validateToken st name authHeader).valid = true ↔
      ∃ h, authHeader = some h ∧ ("Bearer ".data).isPrefixOf h.data = true ∧
        presentedToken h = f.token)
    ∧ (authHeader = none ∨ authHeader = some "" →
        validateToken st name authHeader = ⟨false, some msgTokenRequired⟩)
    ∧ (∀ h, authHeader = some h → h ≠ "" →
        ("Bearer ".data).isPrefixOf h.data = false →
        validateToken st name authHeader = ⟨false, some msgBadFormat⟩)
    ∧ (∀ h, authHeader = some h →
        ("Bearer ".data).isPrefixOf h.data = true → presentedToken h = "" →
        validateToken st name authHeader = ⟨false, some msgTokenMissing⟩)
    ∧ (∀ h, authHeader = some h →
        ("Bearer ".data).isPrefixOf h.data = true → presentedToken h ≠ "" →
        presentedToken h ≠ f.token →
        validateToken st name authHeader = ⟨false, some msgTokenMismatch⟩)
    ∧ [msgTokenRequired, msgBadFormat, msgTokenMissing, msgTokenMismatch].Pairwise (· ≠ ·) := by
  refine ⟨?_, ?_, ?_, ?_, ?_, by decide⟩
  · constructor
    · intro hv
      cases authHeader with
      | none => simp [validateToken, hf] at hv
      | some h =>
        refine ⟨h, rfl, ?_, ?_⟩ <;>
        · by_cases hemp : h = "" <;>
            by_cases hpre : ("Bearer ".data).isPrefixOf h.data <;>
            by_cases htok : presentedToken h = "" <;>
            by_cases heq : presentedToken h = f.token <;>
            simp_all [validateToken, hf]
    · rintro ⟨h, rfl, hpre, heq⟩
      have hemp : ¬ h = "" := by
        intro hh
        rw [hh] at hpre
        simp [List.isPrefixOf] at hpre
      have htok : ¬ presentedToken h = "" := by rw [heq]; exact hne
      simp [validateToken, hf, hemp, hpre, htok, heq, hne]
  · rintro (rfl | rfl) <;> simp [validateToken, hf]
  · rintro h rfl hemp hpre
    simp [validateToken, hf, hemp, hpre]
  · rintro h rfl hpre htok
    have hemp : ¬ h = "" := by
      intro hh
      rw [hh] at hpre
      simp [List.isPrefixOf] at hpre
    simp [validateToken, hf, hemp, hpre, htok]
  · rintro h rfl hpre htok hneq
    have hemp : ¬ h = "" := by
      intro hh
      rw [hh] at hpre
      simp [List.isPrefixOf] at hpre
    simp [validateToken, hf, hemp, hpre, htok, hneq]

/-- Witness for C5 at a concrete record and the five header shapes. -/
theorem C5_token_authentication_witness :
    (validateToken [("f1", ⟨"f1", "code", "api_ab12", "t0",
        ⟨"f1", [], "logic", ⟨PrimType.number, none⟩, none⟩⟩)] "f1"
      (some "Bearer api_ab12")).valid = true := by
  have h := (C5_token_authentication
    [("f1", ⟨"f1", "code", "api_ab12", "t0",
        ⟨"f1", [], "logic", ⟨PrimType.number, none⟩, none⟩⟩)] "f1"
    ⟨"f1", "code", "api_ab12", "t0", ⟨"f1", [], "logic", ⟨PrimType.number, none⟩, none⟩⟩
    (by decide) (by decide) (some "Bearer api_ab12")).1
  exact h.mpr ⟨"Bearer api_ab12", rfl, by decide, by decide⟩

theorem logExecution_eq_take (e : ExecutionLog) (logs : List ExecutionLog) :
    logExecution e logs = (e :: logs).take 100 := by
  show (if (e :: logs).length > 100 then (e :: logs).take 100 else e :: logs)
    = (e :: logs).take 100
  by_cases h : (e :: logs).length > 100
  · rw [if_pos h]
  · rw [if_neg h]
    exact (List.take_of_length_le (Nat.le_of_not_lt h)).symm

theorem take_append_take (l t : List ExecutionLog) (n : Nat) :
    (l ++ t.take n).take n = (l ++ t).take n := by
  rw [List.take_append_eq_append_take, List.take_append_eq_append_take,
    List.take_take, Nat.min_eq_left (Nat.sub_le n l.length)]

theorem foldl_logExecution (es init : List ExecutionLog)
    (hinit : init.length ≤ 100) :
    es.foldl (fun logs e => logExecution e logs) init =
      (es.reverse ++ init).take 100 := by
  induction es generalizing init with
  | nil =>
    simp only [List.foldl_nil, List.reverse_nil, List.nil_append]
    exact (List.take_of_length_le hinit).symm
  | cons a es ih =>
    simp only [List.foldl_cons, List.reverse_cons]
    rw [ih (logExecution a init)
      (by rw [logExecution_eq_take]; exact List.length_take_le 100 (a :: init))]
    rw [logExecution_eq_take, take_append_take]
    simp

/-- C6: each record operation prepends and truncates at 100 (so the log
never exceeds 100 entries), and 150 sequential invocations starting from
an empty log leave exactly 100 entries, most recent first (the reverse of
the invocation order, truncated). -/
theorem C6_log_cap_and_order :
    (∀ (e : ExecutionLog) (logs : List ExecutionLog),
      logExecution e logs = (e :: logs).take 100
      ∧ (logExecution e logs).length ≤ 100)
    ∧ (∀ es : List ExecutionLog, es.length = 150 →
        getLogs (es.foldl (fun logs e => logExecution e logs) []) 1000 =
          es.reverse.take 100
        ∧ (getLogs (es.foldl (fun logs e => logExecution e logs) []) 1000).length
            = 100) := by
  constructor
  · intro e logs
    refine ⟨logExecution_eq_take e logs, ?_⟩
    rw [logExecution_eq_take]
    exact List.length_take_le 100 (e :: logs)
  · intro es hlen
    have hfold := foldl_logExecution es [] (by simp)
    have hlen100 : (es.reverse.take 100).length = 100 := by
      simp [hlen]
    have hres : getLogs (es.foldl (fun logs e => logExecution e logs) []) 1000 =
        es.reverse.take 100 := by
      rw [hfold, List.append_nil, getLogs,
        List.take_take, Nat.min_eq_right (by norm_num)]
    exact ⟨hres, by rw [hres, hlen100]⟩

/-- Witness for C6: 150 concrete invocations leave exactly 100 entries,
most recent first. -/
theorem C6_log_cap_and_order_witness :
    getLogs (((List.range 150).map sampleEntry).foldl
        (fun logs e => logExecution e logs) []) 1000 =
      ((List.range 150).map sampleEntry).reverse.take 100
    ∧ (getLogs (((List.range 150).map sampleEntry).foldl
        (fun logs e => logExecution e logs) []) 1000).length = 100 :=
  (C6_log_cap_and_order.2 ((List.range 150).map sampleEntry) (by simp))

theorem getFunction_replace (st : StoredFunctions) (n : String)
    (f : GeneratedFunction) (h : (getFunction st n).isSome = true) :
    getFunction (st.map (fun kv => if kv.1 = n then (n, f) else kv)) n = some f := by
  induction st with
  | nil => simp [getFunction] at h
  | cons kv rest ih =>
    obtain ⟨k, v⟩ := kv
    rw [List.map_cons]
    by_cases hk : k = n
    · subst hk
      rw [if_pos rfl]
      simp [getFunction]
    · simp only [if_neg hk]
      rw [getFunction, if_neg hk]
      apply ih
      rw [getFunction, if_neg hk] at h
      exact h

theorem getFunction_saveFunction (st : StoredFunctions) (f : GeneratedFunction) :
    getFunction (saveFunction st f) f.name = some f := by
  unfold saveFunction
  by_cases hex : functionExists st f.name = true
  · rw [if_pos hex]
    exact getFunction_replace st f.name f hex
  · rw [if_neg hex]
    unfold functionExists at hex
    induction st with
    | nil => simp [getFunction]
    | cons kv rest ih =>
      obtain ⟨k, v⟩ := kv
      by_cases hk : k = f.name
      · exfalso
        apply hex
        simp [getFunction, hk]
      · rw [List.cons_append, getFunction, if_neg hk]
        apply ih
        intro hh
        apply hex
        rw [getFunction, if_neg hk]
        exact hh

/-- C9: a successful update keeps the stored token and creation timestamp:
the response carries the pre-existing token, and the record stored under
the (possibly new) name has the old record's `token` and `createdAt`,
whatever the new name, contract or code. -/
theorem C9_update_preserves_token_createdAt (st : StoredFunctions)
    (functionName : String) (d : FunctionDescription)
    (generatedCode doc : String) (existing : GeneratedFunction)
    (hex : getFunction st functionName = some existing)
    (name' tok : String)
    (hupd : (updateFunctionRoute st functionName d generatedCode doc).1 =
      UpdateResponse.updated name' tok) :
    tok = existing.token
    ∧ ∃ stored : GeneratedFunction,
        getFunction (updateFunctionRoute st functionName d generatedCode doc).2 d.name
          = some stored
        ∧ stored.token = existing.token
        ∧ stored.createdAt = existing.createdAt
        ∧ stored.name = d.name
        ∧ stored.description.inputs = d.inputs
        ∧ stored.description.output = d.output := by
  have hrun : updateFunctionRoute st functionName d generatedCode doc =
      updateWithExisting st functionName d generatedCode doc existing := by
    unfold updateFunctionRoute
    rw [hex]
  rw [hrun] at hupd ⊢
  unfold updateWithExisting at hupd ⊢
  by_cases hconf : d.name ≠ functionName ∧ functionExists st d.name = true
  · rw [if_pos hconf] at hupd
    cases hupd
  · rw [if_neg hconf] at hupd ⊢
    by_cases hsafe : (d.name ≠ functionName ∨ d.logic ≠ existing.description.logic)
        ∧ (validateCodeSafety generatedCode).safe = false
    · rw [if_pos hsafe] at hupd
      cases hupd
    · rw [if_neg hsafe] at hupd ⊢
      simp only [Prod.fst] at hupd
      cases hupd
      exact ⟨rfl, ⟨_, getFunction_saveFunction _ _, rfl, rfl, rfl, rfl, rfl⟩⟩

/-- Witness for C9: renaming a stored function and changing its code keeps
token and creation date. -/
theorem C9_update_preserves_token_createdAt_witness :
    ("api_old" : String) = "api_old"
    ∧ ∃ stored : GeneratedFunction,
        getFunction (updateFunctionRoute
          [("f1", ⟨"f1", "function f1(n) - old", "api_old", "2025-01-01",
              ⟨"f1", [], "old logic", ⟨PrimType.number, none⟩, none⟩⟩)]
          "f1" ⟨"f2", [], "new logic", ⟨PrimType.number, none⟩, none⟩
          "function f2(n) - new" "docs").2 "f2" = some stored
        ∧ stored.token = "api_old"
        ∧ stored.createdAt = "2025-01-01"
        ∧ stored.name = "f2"
        ∧ stored.description.inputs = []
        ∧ stored.description.output = ⟨PrimType.number, none⟩ := by
  have h := C9_update_preserves_token_createdAt
    [("f1", ⟨"f1", "function f1(n) - old", "api_old", "2025-01-01",
        ⟨"f1", [], "old logic", ⟨PrimType.number, none⟩, none⟩⟩)]
    "f1" ⟨"f2", [], "new logic", ⟨PrimType.number, none⟩, none⟩
    "function f2(n) - new" "docs"
    ⟨"f1", "function f1(n) - old", "api_old", "2025-01-01",
        ⟨"f1", [], "old logic", ⟨PrimType.number, none⟩, none⟩⟩
    (by rfl) "f2" "api_old" (by rfl)
  exact h

/-- C2: when the stored code fails the safety scan, every path that could
reach sandboxed execution stops at the re-check: `executeGeneratedFunction`
(hence the registered route) and the catch-all handler return the blocked
result for every sandbox oracle `decl` — the result does not depend on
`decl` at all, so the sandbox is unreachable. -/
theorem C2_safety_recheck_blocks_execution (st : StoredFunctions) (name : String)
    (f : GeneratedFunction) (hf : getFunction st name = some f)
    (hbad : (validateCodeSafety f.code).safe = false) :
    (∀ (decl : DeclOracle) (inputs : List (String × Value)),
      executeGeneratedFunction decl st name inputs =
        ⟨0, Except.error ("Erreur d’exécution: " ++ "Code non sécurisé détecté: "
          ++ ((validateCodeSafety f.code).reason.getD "undefined"))⟩)
    ∧ (∀ (decl : DeclOracle) (contract : List FunctionInput)
        (authHeader : Option String) (body validated : List (String × Value)),
        (validateToken st name authHeader).valid = true →
        zodParse contract body = Except.ok validated →
        routeHandler decl st name contract authHeader body =
          (ApiResponse.serverError ("Erreur d’exécution: " ++ "Code non sécurisé détecté: "
            ++ ((validateCodeSafety f.code).reason.getD "undefined")),
           ⟨name, 0, ExecStatus.error, body, none,
             some ("Erreur d’exécution: " ++ "Code non sécurisé détecté: "
               ++ ((validateCodeSafety f.code).reason.getD "undefined"))⟩))
    ∧ (∀ (decl : DeclOracle) (authHeader : Option String)
        (body : List (String × Value)),
        name ∉ systemRoutes →
        (validateToken st name authHeader).valid = true →
        catchAllHandler decl st name authHeader body =
          (ApiResponse.codeBlocked (validateCodeSafety f.code).reason,
           some ⟨name, 0, ExecStatus.error, body, none,
             some ("Code non sécurisé: "
               ++ ((validateCodeSafety f.code).reason.getD "undefined"))⟩)) := by
  have hexec : ∀ (decl : DeclOracle) (inputs : List (String × Value)),
      executeGeneratedFunction decl st name inputs =
        ⟨0, Except.error ("Erreur d’exécution: " ++ "Code non sécurisé détecté: "
          ++ ((validateCodeSafety f.code).reason.getD "undefined"))⟩ := by
    intro decl inputs
    simp [executeGeneratedFunction, hf, hbad]
  refine ⟨hexec, ?_, ?_⟩
  · intro decl contract authHeader body validated hv hz
    simp [routeHandler, hv, hz, hexec decl validated]
  · intro decl authHeader body hns hv
    simp [catchAllHandler, hns, hv, hf, hbad]

/-- Witness for C2 at a concrete unsafe stored record, for both the
executor path and the catch-all handler. -/
theorem C2_safety_recheck_blocks_execution_witness :
    executeGeneratedFunction (fun _ => []) [("g", gRec)] "g" [] =
      ⟨0, Except.error ("Erreur d’exécution: " ++ "Code non sécurisé détecté: "
        ++ ((validateCodeSafety gRec.code).reason.getD "undefined"))⟩
    ∧ catchAllHandler (fun _ => []) [("g", gRec)] "g" (some "Bearer api_g") [] =
      (ApiResponse.codeBlocked (validateCodeSafety gRec.code).reason,
       some ⟨"g", 0, ExecStatus.error, [], none,
         some ("Code non sécurisé: "
           ++ ((validateCodeSafety gRec.code).reason.getD "undefined"))⟩) := by
  have h := C2_safety_recheck_blocks_execution [("g", gRec)] "g" gRec
    (by rfl) (by decide)
  exact ⟨h.1 (fun _ => []) [], h.2.2 (fun _ => []) (some "Bearer api_g") []
    (by decide) (by decide)⟩

/-- C7: telemetry is recorded on every invocation outcome and never
influences the response. For the registered route, every path yields
exactly one log entry, naming the function, carrying the raw payload, and
whose status reflects the response; for the catch-all route, every
non-system-route invocation yields one such entry; and the recording step
(applied downstream of the computed response, its outcome dropped, as the
fire-and-forget `import(...).then(...).catch(...)` does) cannot change or
fail the response, whatever the recorder does. -/
theorem C7_telemetry_always_records :
    (∀ (decl : DeclOracle) (st : StoredFunctions) (name : String)
      (contract : List FunctionInput) (auth : Option String)
      (body : List (String × Value)),
      (routeHandler decl st name contract auth body).2.functionName = name
      ∧ (routeHandler decl st name contract auth body).2.inputs = body
      ∧ ((routeHandler decl st name contract auth body).2.status = ExecStatus.success
          ↔ ∃ v, (routeHandler decl st name contract auth body).1 = ApiResponse.ok v))
    ∧ (∀ (decl : DeclOracle) (st : StoredFunctions) (name : String)
        (auth : Option String) (body : List (String × Value)),
        name ∉ systemRoutes →
        ∃ log, (catchAllHandler decl st name auth body).2 = some log
          ∧ log.functionName = name ∧ log.inputs = body)
    ∧ (∀ (rec1 rec2 : LogData → Except String Unit) (h : ApiResponse × LogData),
        (respondWithRecorder rec1 h).1 = (respondWithRecorder rec2 h).1) := by
  refine ⟨?_, ?_, ?_⟩
  · intro decl st name contract auth body
    simp only [routeHandler]
    split
    · simp
    · split
      · simp
      · split <;> simp
  · intro decl st name auth body hns
    simp only [catchAllHandler]
    rw [if_neg hns]
    split
    · exact ⟨_, rfl, rfl, rfl⟩
    · split
      · exact ⟨_, rfl, rfl, rfl⟩
      · split
        · exact ⟨_, rfl, rfl, rfl⟩
        · split
          · exact ⟨_, rfl, rfl, rfl⟩
          · split <;> try exact ⟨_, rfl, rfl, rfl⟩
            split <;> exact ⟨_, rfl, rfl, rfl⟩
  · intro rec1 rec2 h
    rfl

/-- Witness for C7's catch-all conjunct at a concrete invocation (the
system-route hypothesis discharged concretely). -/
theorem C7_telemetry_always_records_witness :
    ∃ log, (catchAllHandler (fun _ => []) [] "f9" none []).2 = some log
      ∧ log.functionName = "f9" ∧ log.inputs = [] :=
  C7_telemetry_always_records.2.1 (fun _ => []) [] "f9" none [] (by decide)

theorem filterMap_congr_mem {α β : Type} (f g : α → Option β) :
    ∀ l : List α, (∀ a ∈ l, f a = g a) → l.filterMap f = l.filterMap g := by
  intro l
  induction l with
  | nil => intro _; rfl
  | cons a as ih =>
    intro h
    rw [List.filterMap_cons, List.filterMap_cons, h a (by simp),
      ih (fun b hb => h b (by simp [hb]))]

theorem zodParse_congr (contract : List FunctionInput)
    (p1 p2 : List (String × Value))
    (hag : ∀ i ∈ contract, lookupField p1 i.name = lookupField p2 i.name) :
    zodParse contract p1 = zodParse contract p2 := by
  have herr : parseErrors contract p1 = parseErrors contract p2 :=
    filterMap_congr_mem _ _ contract (fun i hi => by rw [hag i hi])
  have hinp : parsedInputs contract p1 = parsedInputs contract p2 :=
    filterMap_congr_mem _ _ contract (fun i hi => by rw [hag i hi])
  unfold zodParse
  rw [herr, hinp]

/-- C10: payload fields not named in the stored contract are stripped by
validation (every validated key is a declared name), and two payloads
that agree on every declared field validate identically and produce the
same response from the catch-all handler, whatever extra undeclared
fields they carry — execution cannot observe them. -/
theorem C10_undeclared_fields_cannot_reach_execution (st : StoredFunctions)
    (name : String) (f : GeneratedFunction)
    (p1 p2 : List (String × Value))
    (hf : getFunction st name = some f)
    (hag : ∀ i ∈ f.description.inputs,
      lookupField p1 i.name = lookupField p2 i.name) :
    (∀ kv ∈ parsedInputs f.description.inputs p1,
      kv.1 ∈ f.description.inputs.map (fun i => i.name))
    ∧ zodParse f.description.inputs p1 = zodParse f.description.inputs p2
    ∧ (∀ (decl : DeclOracle) (auth : Option String),
        (catchAllHandler decl st name auth p1).1 =
          (catchAllHandler decl st name auth p2).1) := by
  refine ⟨?_, zodParse_congr _ _ _ hag, ?_⟩
  · intro kv hkv
    unfold parsedInputs at hkv
    rcases List.mem_filterMap.mp hkv with ⟨i, hi, hfi⟩
    cases hlk : lookupField p1 i.name with
    | none => rw [hlk] at hfi; cases hfi
    | some v =>
      rw [hlk] at hfi
      cases hfi
      exact List.mem_map.mpr ⟨i, hi, rfl⟩
  · intro decl auth
    have hz := zodParse_congr f.description.inputs p1 p2 hag
    simp only [catchAllHandler]
    by_cases hns : name ∈ systemRoutes
    · rw [if_pos hns, if_pos hns]
    · rw [if_neg hns, if_neg hns]
      by_cases hv : (validateToken st name auth).valid = false
      · simp [hv]
      · simp only [hv, if_false, ite_false, Bool.false_eq_true]
        rw [hf]
        simp only []
        by_cases hs : (validateCodeSafety f.code).safe = false
        · simp [hs]
        · simp only [hs, if_false, ite_false]
          rw [← hz]
          cases hz1 : zodParse f.description.inputs p1 with
          | error e => rfl
          | ok validated =>
            simp only []
            cases hrv : (executeInSandbox decl name f.code validated).val with
            | error e => rfl
            | ok out =>
              cases out with
              | value v => rfl
              | promise p =>
                obtain ⟨dms, dres⟩ := p
                cases dres <;> rfl

/-- Witness for C10: an extra undeclared field leaves validation and the
catch-all response unchanged. -/
theorem C10_undeclared_fields_cannot_reach_execution_witness :
    zodParse hRec.description.inputs [("a", Value.num 1), ("extra", Value.str "x")] =
      zodParse hRec.description.inputs [("a", Value.num 1)]
    ∧ (catchAllHandler (fun _ => []) [("h", hRec)] "h" none
        [("a", Value.num 1), ("extra", Value.str "x")]).1 =
      (catchAllHandler (fun _ => []) [("h", hRec)] "h" none [("a", Value.num 1)]).1 := by
  have h := C10_undeclared_fields_cannot_reach_execution [("h", hRec)] "h" hRec
    [("a", Value.num 1), ("extra", Value.str "x")] [("a", Value.num 1)]
    (by rfl)
    (by
      intro i hi
      cases hi with
      | head => rfl
      | tail _ h2 => cases h2)
  exact ⟨h.2.1, h.2.2 (fun _ => []) none⟩

theorem parsedInputs_all_present (contract : List FunctionInput)
    (payload V : List (String × Value))
    (hpres : ∀ i ∈ contract, (lookupField payload i.name).isSome = true) :
    (parsedInputs contract payload).map (fun kv => readProp V kv.1)
      = contract.map (fun i => readProp V i.name) := by
  induction contract with
  | nil => rfl
  | cons i rest ih =>
    have hi := hpres i (by simp)
    cases hlk : lookupField payload i.name with
    | none => rw [hlk] at hi; cases hi
    | some v =>
      unfold parsedInputs
      rw [List.filterMap_cons, hlk]
      simp only [List.map_cons]
      exact congrArg (List.cons (readProp V i.name))
        (ih (fun j hj => hpres j (by simp [hj])))

/-- C4 (amended): the executor looks up the binding named `functionName`
among the snippet's declarations; if absent or not callable it fails with
the function-not-found error; otherwise it invokes it positionally with
one `args.<key>` read per key of the validated inputs object, in object
key order — which coincides with the contract's declared parameter order
exactly when every declared input is present in the payload (omitted
optional inputs shift the later arguments instead of reading as
`undefined`). -/
theorem C4_lookup_and_positional_invocation (decl : DeclOracle)
    (name code : String) (inputs : List (String × Value)) :
    ((lookupBinding (decl (normalizeCode code)) name = none
      ∨ (∃ v, lookupBinding (decl (normalizeCode code)) name
          = some (Binding.notCallable v))) →
      (executeInSandbox decl name code inputs).val =
        Except.error (classifyVmError name
          ("Fonction " ++ name ++ " non trouvée dans le code généré")))
    ∧ (∀ impl, lookupBinding (decl (normalizeCode code)) name
          = some (Binding.callable impl) →
        executeInSandbox decl name code inputs =
          ⟨min (impl (sandboxArgs inputs)).syncMs SANDBOX_TIMEOUT,
            match vmRun SANDBOX_TIMEOUT (impl (sandboxArgs inputs)) with
            | Except.ok out => Except.ok out
            | Except.error msg => Except.error (classifyVmError name msg)⟩)
    ∧ (∀ (contract : List FunctionInput) (payload validated : List (String × Value)),
        zodParse contract payload = Except.ok validated →
        (∀ i ∈ contract, (lookupField payload i.name).isSome = true) →
        sandboxArgs validated = claimedArgs contract validated) := by
  refine ⟨?_, ?_, ?_⟩
  · intro hmiss
    unfold executeInSandbox wrapperCall
    rcases hmiss with hnone | ⟨v, hnc⟩
    · rw [hnone]
      rfl
    · rw [hnc]
      rfl
  · intro impl himpl
    unfold executeInSandbox wrapperCall
    rw [himpl]
  · intro contract payload validated hz hpres
    have hval : validated = parsedInputs contract payload := by
      unfold zodParse at hz
      by_cases he : parseErrors contract payload = []
      · rw [if_pos he] at hz
        cases hz
        rfl
      · rw [if_neg he] at hz
        cases hz
    unfold sandboxArgs claimedArgs
    rw [hval]
    exact parsedInputs_all_present contract payload (parsedInputs contract payload) hpres

/-- Counterexample to C4 as stated: with contract `[a optional, b
required]` and payload `{b: 2}`, validation succeeds with the single key
`b`, and the sandboxed function receives the one-element argument list
`[2]` (observed by a function returning its arguments) — `b`'s value
arrives in the first parameter `a` — whereas the claimed declared-order
invocation would pass `[undefined, 2]`. -/
theorem C4_lookup_and_positional_invocation_counterexample :
    zodParse c4contract [("b", Value.num 2)] = Except.ok [("b", Value.num 2)]
    ∧ (executeInSandbox dCap "fx" "function fx(a, b) - body"
        [("b", Value.num 2)]).val =
      Except.ok (RunOutcome.value (Value.arr [Value.num 2]))
    ∧ claimedArgs c4contract [("b", Value.num 2)] = [Value.undef, Value.num 2]
    ∧ Value.arr [Value.num 2] ≠ Value.arr [Value.undef, Value.num 2] := by
  refine ⟨rfl, rfl, rfl, ?_⟩
  intro h
  cases h

/-- Witness for C4 (amended) at concrete inputs: a missing binding fails
with the not-found error (classified as a runtime error), and with both
declared inputs present the sandbox argument list equals the declared
order reads. -/
theorem C4_lookup_and_positional_invocation_witness :
    (executeInSandbox (fun _ => []) "fx" "function fx(a, b) - body"
        [("b", Value.num 2)]).val =
      Except.error (classifyVmError "fx"
        ("Fonction " ++ "fx" ++ " non trouvée dans le code généré"))
    ∧ sandboxArgs [("a", Value.num 7), ("b", Value.num 2)] =
        claimedArgs c4contract [("a", Value.num 7), ("b", Value.num 2)] := by
  have h1 := (C4_lookup_and_positional_invocation (fun _ => []) "fx"
    "function fx(a, b) - body" [("b", Value.num 2)]).1 (Or.inl rfl)
  have h3 := (C4_lookup_and_positional_invocation (fun _ => []) "fx"
    "function fx(a, b) - body" [("b", Value.num 2)]).2.2 c4contract
    [("a", Value.num 7), ("b", Value.num 2)]
    [("a", Value.num 7), ("b", Value.num 2)] rfl
    (by
      intro i hi
      cases hi with
      | head => rfl
      | tail _ h2 =>
        cases h2 with
        | head => rfl
        | tail _ h3 => cases h3)
  exact ⟨h1, h3⟩

/-- C3 (amended): the executor enforces the 5000 ms wall-clock timeout on
the synchronous evaluation — a body that does not complete in time yields
the timeout-classified error, distinguishable from the other error kinds,
after exactly the timeout — and the executor's synchronous elapsed time
never exceeds the timeout; but a returned asynchronous computation is
awaited afterwards with no timeout, so the total latency is the
synchronous time plus the full settlement delay, unbounded by the
timeout. -/
theorem C3_timeout_sync_only (decl : DeclOracle) (name code : String)
    (inputs : List (String × Value)) :
    (SANDBOX_TIMEOUT <
        (wrapperCall (decl (normalizeCode code)) name inputs).syncMs →
      executeInSandbox decl name code inputs =
        ⟨SANDBOX_TIMEOUT, Except.error ⟨ExecErrorKind.timeout,
          "L’exécution de " ++ name ++ " a dépassé le temps limite de 5000ms"⟩⟩)
    ∧ ExecErrorKind.timeout ≠ ExecErrorKind.runtimeError
    ∧ ExecErrorKind.timeout ≠ ExecErrorKind.unauthorizedAccess
    ∧ (executeInSandbox decl name code inputs).ms ≤ SANDBOX_TIMEOUT
    ∧ (∀ (st : StoredFunctions) (f : GeneratedFunction) (p : AsyncComp),
        getFunction st name = some f →
        (validateCodeSafety f.code).safe = true →
        wrapperCall (decl (normalizeCode f.code)) name inputs =
          ⟨0, CallResult.promise p⟩ →
        (executeGeneratedFunction decl st name inputs).ms = p.delayMs) := by
  refine ⟨?_, by decide, by decide, ?_, ?_⟩
  · intro hslow
    have hmin : min (wrapperCall (decl (normalizeCode code)) name inputs).syncMs
        SANDBOX_TIMEOUT = SANDBOX_TIMEOUT :=
      Nat.min_eq_right (Nat.le_of_lt hslow)
    have hrun : vmRun SANDBOX_TIMEOUT
        (wrapperCall (decl (normalizeCode code)) name inputs) =
        Except.error ("Script execution timed out after "
          ++ toString SANDBOX_TIMEOUT ++ "ms.") := by
      unfold vmRun
      rw [if_pos hslow]
    simp only [executeInSandbox, hmin, hrun]
    rfl
  · simp only [executeInSandbox]
    exact Nat.min_le_right _ _
  · intro st f p hf hsafe hw
    have hns : ¬ (validateCodeSafety f.code).safe = false := by
      rw [hsafe]
      exact fun h => Bool.noConfusion h
    simp only [executeGeneratedFunction, hf, hns, if_false, ite_false,
      executeInSandbox, hw, vmRun]
    cases hp : p.result <;> simp [hp]

/-- Counterexample to C3 as stated: a function that immediately returns a
promise settling after `10^9` ms is reported successful with total
latency `10^9` ms — far beyond `timeoutMs = 5000` plus any reasonable
overhead — because the awaited continuation is outside the vm2 timeout. -/
theorem C3_timeout_sync_only_counterexample :
    executeGeneratedFunction dInf [("f", fRec)] "f" [] =
      ⟨1000000000, Except.ok (Value.num 42)⟩
    ∧ SANDBOX_TIMEOUT + 999000000 < 1000000000 := by
  constructor
  · rfl
  · decide

/-- Witness for C3 (amended): a synchronous 10000 ms evaluation is cut at
5000 ms with the timeout error, and the promise case at `10^9` ms delay. -/
theorem C3_timeout_sync_only_witness :
    executeInSandbox dSlow "f" "function f(n) - body" [] =
      ⟨SANDBOX_TIMEOUT, Except.error ⟨ExecErrorKind.timeout,
        "L’exécution de " ++ "f" ++ " a dépassé le temps limite de 5000ms"⟩⟩
    ∧ (executeGeneratedFunction dInf [("f", fRec)] "f" []).ms = 1000000000 := by
  have h1 := (C3_timeout_sync_only dSlow "f" "function f(n) - body" []).1
    (by decide)
  have h2 := (C3_timeout_sync_only dInf "f" "" []).2.2.2.2 [("f", fRec)] fRec
    ⟨1000000000, Except.ok (Value.num 42)⟩ rfl (by decide) rfl
  exact ⟨h1, h2⟩

theorem word_not_space {c : Char} (h : jsIsWord c = true) : jsIsSpace c = false := by
  cases hs : jsIsSpace c with
  | false => rfl
  | true =>
    exfalso
    have hc : c = ' ' ∨ c = '\t' ∨ c = '\n' ∨ c = '\x0b' ∨ c = '\x0c' ∨ c = '\r' := by
      simpa [jsIsSpace, or_assoc] using hs
    rcases hc with rfl | rfl | rfl | rfl | rfl | rfl <;> exact absurd h (by decide)

theorem dropWhile_suffix (p : Char → Bool) (l : List Char) : l.dropWhile p <:+ l :=
  ⟨l.takeWhile p, List.takeWhile_append_dropWhile p l⟩

theorem suffix_getLast? {l₁ l₂ : List Char} (h : l₁ <:+ l₂) (hne : l₁ ≠ []) :
    l₂.getLast? = l₁.getLast? := by
  obtain ⟨pre, rfl⟩ := h
  exact List.getLast?_append_of_ne_nil pre hne

theorem lastNonWs_of_suffix {l₁ l₂ : List Char} (h : l₁ <:+ l₂)
    (hl : lastNonWs l₂) (hne : l₁ ≠ []) : lastNonWs l₁ := by
  intro c hc
  exact hl c ((suffix_getLast? h hne).trans hc ▸ by rw [suffix_getLast? h hne, hc])

theorem head?_dropWhile_not (p : Char → Bool) (l : List Char) :
    ∀ c, (l.dropWhile p).head? = some c → p c = false := by
  induction l with
  | nil => intro c h; cases h
  | cons a as ih =>
    intro c h
    rw [List.dropWhile_cons] at h
    by_cases hp : p a = true
    · rw [if_pos hp] at h
      exact ih c h
    · rw [if_neg hp] at h
      cases h
      exact Bool.eq_false_iff.mpr hp

theorem dropWhile_eq_self_of_head (p : Char → Bool) (l : List Char)
    (h : ∀ c, l.head? = some c → p c = false) : l.dropWhile p = l := by
  cases l with
  | nil => rfl
  | cons a as =>
    rw [List.dropWhile_cons, if_neg]
    rw [h a rfl]
    exact fun hh => Bool.noConfusion hh

/-- The trim output has no whitespace at either edge. -/
theorem jsTrimL_noEdgeWs (s : List Char) :
    headNonWs (jsTrimL s) ∧ lastNonWs (jsTrimL s) := by
  unfold jsTrimL
  constructor
  · intro c hc
    rw [List.head?_reverse] at hc
    by_cases hu : (s.dropWhile jsIsSpace).reverse.dropWhile jsIsSpace = []
    · rw [hu] at hc
      cases hc
    · rw [← suffix_getLast?
          (dropWhile_suffix jsIsSpace (s.dropWhile jsIsSpace).reverse) hu,
        List.getLast?_reverse] at hc
      exact head?_dropWhile_not jsIsSpace s c hc
  · intro c hc
    rw [List.getLast?_reverse] at hc
    exact head?_dropWhile_not jsIsSpace (s.dropWhile jsIsSpace).reverse c hc

/-- Trim is the identity on strings with no whitespace at either edge. -/
theorem jsTrimL_eq_self {s : List Char} (h1 : headNonWs s) (h2 : lastNonWs s) :
    jsTrimL s = s := by
  unfold jsTrimL
  rw [dropWhile_eq_self_of_head jsIsSpace s h1]
  rw [dropWhile_eq_self_of_head jsIsSpace s.reverse
    (fun c hc => h2 c (by rwa [List.head?_reverse] at hc))]
  exact List.reverse_reverse s

theorem scanPlain_nil (tryM : List Char → Option (List Char × List Char))
    (h : tryM [] = none) : ∀ fuel, scanPlain tryM fuel [] = [] := by
  intro fuel
  cases fuel with
  | zero => rfl
  | succ n => simp [scanPlain, h]

theorem scanPlain_ne_nil {tryM : List Char → Option (List Char × List Char)}
    (hM : PassOk tryM) : ∀ fuel (s : List Char), s ≠ [] →
    scanPlain tryM fuel s ≠ [] := by
  intro fuel s hs
  cases fuel with
  | zero => exact hs
  | succ n =>
    unfold scanPlain
    cases htry : tryM s with
    | some pr =>
      obtain ⟨repl, rest⟩ := pr
      exact List.append_ne_nil_of_left_ne_nil (hM.repl_ne s repl rest htry) _
    | none =>
      cases s with
      | nil => exact absurd rfl hs
      | cons c cs => simp

theorem scanPlain_headNonWs {tryM : List Char → Option (List Char × List Char)}
    (hM : PassOk tryM) : ∀ fuel (s : List Char), headNonWs s →
    headNonWs (scanPlain tryM fuel s) := by
  intro fuel s hs
  cases fuel with
  | zero => exact hs
  | succ n =>
    unfold scanPlain
    cases htry : tryM s with
    | some pr =>
      obtain ⟨repl, rest⟩ := pr
      intro c hc
      rw [List.head?_append_of_ne_nil repl (hM.repl_ne s repl rest htry)] at hc
      exact hM.repl_head s repl rest htry c hc
    | none =>
      cases s with
      | nil => intro c hc; cases hc
      | cons a cs =>
        intro c hc
        simp only [List.head?] at hc
        cases hc
        exact hs a rfl

theorem scanPlain_lastNonWs {tryM : List Char → Option (List Char × List Char)}
    (hM : PassOk tryM) : ∀ fuel (s : List Char), lastNonWs s →
    lastNonWs (scanPlain tryM fuel s) := by
  intro fuel
  induction fuel with
  | zero => intro s hs; exact hs
  | succ n ih =>
    intro s hs
    unfold scanPlain
    cases htry : tryM s with
    | some pr =>
      obtain ⟨repl, rest⟩ := pr
      by_cases hrest : rest = []
      · subst hrest
        intro c hc
        have hc2 : (repl ++ scanPlain tryM n []).getLast? = some c := hc
        rw [scanPlain_nil tryM hM.nil_none n, List.append_nil] at hc2
        exact hM.repl_last s repl [] htry rfl hs c hc2
      · have hrec := ih rest (lastNonWs_of_suffix (hM.suff s repl rest htry) hs hrest)
        intro c hc
        have hc2 : (repl ++ scanPlain tryM n rest).getLast? = some c := hc
        rw [List.getLast?_append_of_ne_nil repl
          (scanPlain_ne_nil hM n rest hrest)] at hc2
        exact hrec c hc2
    | none =>
      cases s with
      | nil => intro c hc; cases hc
      | cons a cs =>
        by_cases hcs : cs = []
        · subst hcs
          intro c hc
          have hc2 : (a :: scanPlain tryM n []).getLast? = some c := hc
          rw [scanPlain_nil tryM hM.nil_none n] at hc2
          exact hs c hc2
        · have hlcs : lastNonWs cs := by
            intro c hc
            apply hs c
            rw [← hc]
            exact (suffix_getLast? (List.suffix_cons a cs) hcs).symm ▸ rfl
          have hrec := ih cs hlcs
          intro c hc
          have hc2 : (a :: scanPlain tryM n cs).getLast? = some c := hc
          have heq : (a :: scanPlain tryM n cs).getLast?
              = (scanPlain tryM n cs).getLast? := by
            have := List.getLast?_append_of_ne_nil [a] (scanPlain_ne_nil hM n cs hcs)
            simpa using this
          rw [heq] at hc2
          exact hrec c hc2

theorem scanML_nil (tryM : List Char → Option (List Char × List Char × Bool))
    (h : tryM [] = none) : ∀ fuel flag, scanML tryM fuel flag [] = [] := by
  intro fuel flag
  cases fuel with
  | zero => rfl
  | succ n => cases flag <;> simp [scanML, h]

theorem scanML_ne_nil {tryM : List Char → Option (List Char × List Char × Bool)}
    (hM : PassOkML tryM) : ∀ fuel flag (s : List Char), s ≠ [] →
    scanML tryM fuel flag s ≠ [] := by
  intro fuel flag s hs
  cases fuel with
  | zero => exact hs
  | succ n =>
    unfold scanML
    cases hflag : (if flag then tryM s else none) with
    | some pr =>
      obtain ⟨repl, rest, fl⟩ := pr
      have htry : tryM s = some (repl, rest, fl) := by
        cases flag with
        | false => cases hflag
        | true => exact hflag
      exact List.append_ne_nil_of_left_ne_nil (hM.repl_ne s repl rest fl htry) _
    | none =>
      cases s with
      | nil => exact absurd rfl hs
      | cons c cs => simp

theorem scanML_headNonWs {tryM : List Char → Option (List Char × List Char × Bool)}
    (hM : PassOkML tryM) : ∀ fuel flag (s : List Char), headNonWs s →
    headNonWs (scanML tryM fuel flag s) := by
  intro fuel flag s hs
  cases fuel with
  | zero => exact hs
  | succ n =>
    unfold scanML
    cases hflag : (if flag then tryM s else none) with
    | some pr =>
      obtain ⟨repl, rest, fl⟩ := pr
      have htry : tryM s = some (repl, rest, fl) := by
        cases flag with
        | false => cases hflag
        | true => exact hflag
      intro c hc
      rw [List.head?_append_of_ne_nil repl (hM.repl_ne s repl rest fl htry)] at hc
      exact hM.repl_head s repl rest fl htry c hc
    | none =>
      cases s with
      | nil => intro c hc; cases hc
      | cons a cs =>
        intro c hc
        simp only [List.head?] at hc
        cases hc
        exact hs a rfl

theorem scanML_lastNonWs {tryM : List Char → Option (List Char × List Char × Bool)}
    (hM : PassOkML tryM) : ∀ fuel flag (s : List Char), lastNonWs s →
    lastNonWs (scanML tryM fuel flag s) := by
  intro fuel
  induction fuel with
  | zero => intro flag s hs; exact hs
  | succ n ih =>
    intro flag s hs
    unfold scanML
    cases hflag : (if flag then tryM s else none) with
    | some pr =>
      obtain ⟨repl, rest, fl⟩ := pr
      have htry : tryM s = some (repl, rest, fl) := by
        cases flag with
        | false => cases hflag
        | true => exact hflag
      by_cases hrest : rest = []
      · subst hrest
        intro c hc
        have hc2 : (repl ++ scanML tryM n fl []).getLast? = some c := hc
        rw [scanML_nil tryM hM.nil_none n fl, List.append_nil] at hc2
        exact hM.repl_last s repl [] fl htry rfl hs c hc2
      · have hrec := ih fl rest
          (lastNonWs_of_suffix (hM.suff s repl rest fl htry) hs hrest)
        intro c hc
        have hc2 : (repl ++ scanML tryM n fl rest).getLast? = some c := hc
        rw [List.getLast?_append_of_ne_nil repl
          (scanML_ne_nil hM n fl rest hrest)] at hc2
        exact hrec c hc2
    | none =>
      cases s with
      | nil => intro c hc; cases hc
      | cons a cs =>
        by_cases hcs : cs = []
        · subst hcs
          intro c hc
          have hc2 : (a :: scanML tryM n (a = '\n') []).getLast? = some c := hc
          rw [scanML_nil tryM hM.nil_none n] at hc2
          exact hs c hc2
        · have hlcs : lastNonWs cs := by
            intro c hc
            apply hs c
            rw [← hc]
            exact (suffix_getLast? (List.suffix_cons a cs) hcs).symm ▸ rfl
          have hrec := ih (a = '\n') cs hlcs
          intro c hc
          have hc2 : (a :: scanML tryM n (a = '\n') cs).getLast? = some c := hc
          have heq : (a :: scanML tryM n (a = '\n') cs).getLast?
              = (scanML tryM n (a = '\n') cs).getLast? := by
            have := List.getLast?_append_of_ne_nil [a]
              (scanML_ne_nil hM n (a = '\n') cs hcs)
            simpa using this
          rw [heq] at hc2
          exact hrec c hc2

theorem headNonWs_of_cons {c : Char} {l : List Char} (hc : jsIsSpace c = false) :
    headNonWs (c :: l) := by
  intro d hd
  simp only [List.head?] at hd
  cases hd
  exact hc

theorem lastNonWs_concat (l : List Char) (c : Char) (hc : jsIsSpace c = false) :
    lastNonWs (l ++ [c]) := by
  intro d hd
  rw [List.getLast?_concat] at hd
  cases hd
  exact hc

theorem lastNonWs_append_concat (l m : List Char) (c : Char)
    (hc : jsIsSpace c = false) : lastNonWs (l ++ (m ++ [c])) := by
  intro d hd
  rw [List.getLast?_append_of_ne_nil l (by simp), List.getLast?_concat] at hd
  cases hd
  exact hc

theorem stripLits_suffix : ∀ lits s r : List Char,
    stripLits lits s = some r → r <:+ s := by
  intro lits
  induction lits with
  | nil =>
    intro s r h
    cases h
    exact List.suffix_refl s
  | cons c cs ih =>
    intro s r h
    cases s with
    | nil => cases h
    | cons x xs =>
      unfold stripLits at h
      split at h
      · exact (ih xs r h).trans (List.suffix_cons x xs)
      · cases h

theorem matchKw_inv : ∀ (lst : List (List Char)) (s kw r : List Char),
    matchKw lst s = some (kw, r) → kw ∈ lst ∧ stripLits kw s = some r := by
  intro lst
  induction lst with
  | nil => intro s kw r h; cases h
  | cons k ks ih =>
    intro s kw r h
    unfold matchKw at h
    split at h
    · rename_i r2 heq
      cases h
      exact ⟨List.mem_cons_self k ks, heq⟩
    · have := ih s kw r h
      exact ⟨List.mem_cons_of_mem k this.1, this.2⟩

/-- Inversion for the return-type pass matcher. -/
theorem tryStripReturnType_inv : ∀ s repl rest,
    tryStripReturnType s = some (repl, rest) →
    repl = [')', ' ', '\x7b'] ∧ rest <:+ s := by
  intro s repl rest h
  unfold tryStripReturnType at h
  split at h
  · split at h
    · split at h
      · cases h
      · split at h
        · split at h
          · cases h
            rename_i r1 xx r3 heq2 x2 c xs heq3 hts x4 heq4
            refine ⟨rfl, ?_⟩
            have h1 : rest <:+ xs := by
              have hsfx := List.suffix_cons '\x7b' rest
              rw [← heq4] at hsfx
              exact hsfx.trans (dropWhile_suffix isTypeChar xs)
            have h2 : xs <:+ r3 := by
              have hsfx := List.suffix_cons c xs
              rw [← heq3] at hsfx
              exact hsfx.trans (dropWhile_suffix jsIsSpace r3)
            have h3 : r3 <:+ r1 := by
              have hsfx := List.suffix_cons ':' r3
              rw [← heq2] at hsfx
              exact hsfx.trans (dropWhile_suffix jsIsSpace r1)
            exact ((h1.trans h2).trans h3).trans (List.suffix_cons ')' r1)
          · cases h
        · cases h
    · cases h
  · cases h

theorem passOk_returnType : PassOk tryStripReturnType := by
  refine ⟨rfl, ?_, ?_, ?_, ?_⟩
  · intro s repl rest h
    rw [(tryStripReturnType_inv s repl rest h).1]
    simp
  · intro s repl rest h
    rw [(tryStripReturnType_inv s repl rest h).1]
    exact headNonWs_of_cons (by decide)
  · intro s repl rest h
    exact (tryStripReturnType_inv s repl rest h).2
  · intro s repl rest h _ _
    rw [(tryStripReturnType_inv s repl rest h).1]
    exact lastNonWs_concat [')', ' '] '\x7b' (by decide)

/-- Inversion for the arrow-parameter pass matcher. -/
theorem tryStripArrowParams_inv : ∀ s repl rest,
    tryStripArrowParams s = some (repl, rest) →
    (∃ cont, repl = ['('] ++ (processParams cont ++ [')'])) ∧ rest <:+ s := by
  intro s repl rest h
  unfold tryStripArrowParams at h
  split at h
  · split at h
    · cases h
    · split at h
      · split at h
        · cases h
          rename_i x3 r4 x2 hne s2 r2 heqDrop x1 heqWs
          refine ⟨⟨r4.takeWhile (fun x => decide (x ≠ ')')), rfl⟩, ?_⟩
          have h1 : rest <:+ r2 := by
            have hsfx := List.suffix_cons ':' rest
            rw [← heqWs] at hsfx
            exact hsfx.trans (dropWhile_suffix jsIsSpace r2)
          have h2 : r2 <:+ r4 := by
            have hsfx := List.suffix_cons ')' r2
            rw [← heqDrop] at hsfx
            exact hsfx.trans (dropWhile_suffix (fun x => decide (x ≠ ')')) r4)
          exact (h1.trans h2).trans (List.suffix_cons '(' r4)
        · cases h
      · cases h
  · cases h

theorem passOk_arrowParams : PassOk tryStripArrowParams := by
  refine ⟨rfl, ?_, ?_, ?_, ?_⟩
  · intro s repl rest h
    obtain ⟨⟨cont, hrepl⟩, _⟩ := tryStripArrowParams_inv s repl rest h
    rw [hrepl]
    simp
  · intro s repl rest h
    obtain ⟨⟨cont, hrepl⟩, _⟩ := tryStripArrowParams_inv s repl rest h
    rw [hrepl]
    exact headNonWs_of_cons (by decide)
  · intro s repl rest h
    exact (tryStripArrowParams_inv s repl rest h).2
  · intro s repl rest h _ _
    obtain ⟨⟨cont, hrepl⟩, _⟩ := tryStripArrowParams_inv s repl rest h
    rw [hrepl]
    exact lastNonWs_append_concat ['('] (processParams cont) ')' (by decide)

/-- Inversion for the `export {` pass matcher. -/
theorem tryStripExportBrace_inv : ∀ s repl rest flag,
    tryStripExportBrace s = some (repl, rest, flag) →
    repl = ['\x7b'] ∧ rest <:+ s := by
  intro s repl rest flag h
  unfold tryStripExportBrace at h
  split at h
  · cases h
  · split at h
    · cases h
      rename_i r1 heqStrip r2 heqDrop
      refine ⟨rfl, ?_⟩
      have h1 : rest <:+ r1 := by
        have hsfx := List.suffix_cons '\x7b' rest
        rw [← heqDrop] at hsfx
        exact hsfx.trans (dropWhile_suffix jsIsSpace r1)
      exact h1.trans (stripLits_suffix "export".data s r1 heqStrip)
    · cases h

theorem passOk_exportBrace : PassOkML tryStripExportBrace := by
  refine ⟨rfl, ?_, ?_, ?_, ?_⟩
  · intro s repl rest flag h
    rw [(tryStripExportBrace_inv s repl rest flag h).1]
    simp
  · intro s repl rest flag h
    rw [(tryStripExportBrace_inv s repl rest flag h).1]
    exact headNonWs_of_cons (by decide)
  · intro s repl rest flag h
    exact (tryStripExportBrace_inv s repl rest flag h).2
  · intro s repl rest flag h _ _
    rw [(tryStripExportBrace_inv s repl rest flag h).1]
    exact lastNonWs_concat [] '\x7b' (by decide)

theorem mem_of_head? {l : List Char} {c : Char} (h : l.head? = some c) : c ∈ l := by
  cases l with
  | nil => cases h
  | cons a as =>
    simp only [List.head?] at h
    cases h
    exact List.mem_cons_self _ _

/-- Inversion for the optional-mark pass matcher. -/
theorem tryStripOptionalMark_inv : ∀ s repl rest,
    tryStripOptionalMark s = some (repl, rest) →
    repl = s.takeWhile jsIsWord ++ [':'] ∧ s.takeWhile jsIsWord ≠ []
      ∧ rest <:+ s := by
  intro s repl rest h
  unfold tryStripOptionalMark at h
  split at h
  · cases h
  · split at h
    · split at h
      · cases h
        rename_i x3 hne x1 r2 heq1 x0 heq2
        refine ⟨rfl, fun hh => hne hh, ?_⟩
        have h1 : rest <:+ r2 := by
          have hsfx := List.suffix_cons ':' rest
          rw [← heq2] at hsfx
          exact hsfx.trans (dropWhile_suffix jsIsSpace r2)
        have h2 : r2 <:+ s.dropWhile jsIsWord := by
          have hsfx := List.suffix_cons '?' r2
          rw [← heq1] at hsfx
          exact hsfx.trans (dropWhile_suffix jsIsSpace (s.dropWhile jsIsWord))
        exact (h1.trans h2).trans (dropWhile_suffix jsIsWord s)
      · cases h
    · cases h

theorem passOk_optionalMark : PassOk tryStripOptionalMark := by
  refine ⟨rfl, ?_, ?_, ?_, ?_⟩
  · intro s repl rest h
    rw [(tryStripOptionalMark_inv s repl rest h).1]
    simp
  · intro s repl rest h
    obtain ⟨hrepl, hne, _⟩ := tryStripOptionalMark_inv s repl rest h
    rw [hrepl]
    intro c hc
    rw [List.head?_append_of_ne_nil _ hne] at hc
    exact word_not_space (List.mem_takeWhile_imp (mem_of_head? hc))
  · intro s repl rest h
    exact (tryStripOptionalMark_inv s repl rest h).2.2
  · intro s repl rest h _ _
    rw [(tryStripOptionalMark_inv s repl rest h).1]
    exact lastNonWs_concat _ ':' (by decide)

/-- Inversion for the variable-annotation pass matcher. -/
theorem tryStripVarType_inv : ∀ s repl rest,
    tryStripVarType s = some (repl, rest) →
    (∃ kw w, kw ∈ varKwList ∧ repl = kw ++ [' '] ++ w ++ [' ', '='])
      ∧ rest <:+ s := by
  intro s repl rest h
  unfold tryStripVarType at h
  split at h
  · cases h
  · split at h
    · cases h
    · split at h
      · split at h
        · cases h
        · dsimp only [] at h
          split at h
          · split at h
            · cases h
            · split at h
              · cases h
                rename_i x8 kw x7 c xs heqKw hwsc x5 hnew x3 r3 heq1 x2 hnec x1 heq0
                constructor
                · exact ⟨kw, _, (matchKw_inv varKwList s kw (c :: xs) heqKw).1, rfl⟩
                · have h1 : rest <:+ r3 := by
                    have hsfx := List.suffix_cons '=' rest
                    rw [← heq0] at hsfx
                    exact hsfx.trans (dropWhile_suffix (fun x => decide (x ≠ '=')) r3)
                  have h2 : r3 <:+ xs := by
                    have hsfx := List.suffix_cons ':' r3
                    rw [← heq1] at hsfx
                    exact ((hsfx.trans (dropWhile_suffix jsIsSpace _)).trans
                      (dropWhile_suffix jsIsWord _)).trans
                      (dropWhile_suffix jsIsSpace xs)
                  have h3 : xs <:+ s :=
                    (List.suffix_cons c xs).trans
                      (stripLits_suffix kw s (c :: xs)
                        (matchKw_inv varKwList s kw (c :: xs) heqKw).2)
                  exact (h1.trans h2).trans h3
              · cases h
          · cases h
      · cases h

theorem lastNonWs_var_repl (k w : List Char) :
    lastNonWs (k ++ [' '] ++ w ++ [' ', '=']) := by
  intro d hd
  rw [List.getLast?_append_of_ne_nil _ (by simp)] at hd
  have heq : ([' ', '='] : List Char).getLast? = some '=' := rfl
  rw [heq] at hd
  cases hd
  decide

theorem passOk_varType : PassOk tryStripVarType := by
  refine ⟨rfl, ?_, ?_, ?_, ?_⟩
  · intro s repl rest h
    obtain ⟨⟨kw, w, hkw, hrepl⟩, _⟩ := tryStripVarType_inv s repl rest h
    rw [hrepl]
    simp [varKwList] at hkw
    rcases hkw with rfl | rfl | rfl <;> simp
  · intro s repl rest h
    obtain ⟨⟨kw, w, hkw, hrepl⟩, _⟩ := tryStripVarType_inv s repl rest h
    rw [hrepl]
    simp [varKwList] at hkw
    rcases hkw with rfl | rfl | rfl <;> exact headNonWs_of_cons (by decide)
  · intro s repl rest h
    exact (tryStripVarType_inv s repl rest h).2
  · intro s repl rest h _ _
    obtain ⟨⟨kw, w, hkw, hrepl⟩, _⟩ := tryStripVarType_inv s repl rest h
    rw [hrepl]
    exact lastNonWs_var_repl kw w

/-- Inversion for the `export <kw>` pass matcher. -/
theorem tryStripExportDecl_inv : ∀ s repl rest flag,
    tryStripExportDecl s = some (repl, rest, flag) →
    ∃ kw d xs, kw ∈ declKwList ∧ repl = kw ++ [' ']
      ∧ rest = xs.dropWhile jsIsSpace ∧ jsIsSpace d = true
      ∧ (d :: xs) <:+ s := by
  intro s repl rest flag h
  unfold tryStripExportDecl at h
  split at h
  · cases h
  · split at h
    · cases h
    · split at h
      · split at h
        · split at h
          · cases h
          · split at h
            · cases h
              rename_i c xs1 heqStrip hwsc x2 kw x1 d xs heqKw hwsd
              refine ⟨kw, d, xs, (matchKw_inv declKwList _ kw (d :: xs) heqKw).1,
                rfl, rfl, hwsd, ?_⟩
              have h1 : (d :: xs) <:+ xs1.dropWhile jsIsSpace :=
                stripLits_suffix kw (xs1.dropWhile jsIsSpace) (d :: xs)
                  (matchKw_inv declKwList _ kw (d :: xs) heqKw).2
              have h2 : xs1 <:+ s :=
                (List.suffix_cons c xs1).trans
                  (stripLits_suffix "export".data s (c :: xs1) heqStrip)
              exact (h1.trans (dropWhile_suffix jsIsSpace xs1)).trans h2
            · cases h
        · cases h
      · cases h

theorem passOkML_exportDecl : PassOkML tryStripExportDecl := by
  refine ⟨rfl, ?_, ?_, ?_, ?_⟩
  · intro s repl rest flag h
    obtain ⟨kw, d, xs, hkw, hrepl, _, _, _⟩ := tryStripExportDecl_inv s repl rest flag h
    rw [hrepl]
    simp
  · intro s repl rest flag h
    obtain ⟨kw, d, xs, hkw, hrepl, _, _, _⟩ := tryStripExportDecl_inv s repl rest flag h
    rw [hrepl]
    simp [declKwList] at hkw
    rcases hkw with rfl | rfl | rfl | rfl <;> exact headNonWs_of_cons (by decide)
  · intro s repl rest flag h
    obtain ⟨kw, d, xs, hkw, hrepl, hrest, hws, hsfx⟩ :=
      tryStripExportDecl_inv s repl rest flag h
    rw [hrest]
    exact ((dropWhile_suffix jsIsSpace xs).trans (List.suffix_cons d xs)).trans hsfx
  · intro s repl rest flag h hrest hlast
    exfalso
    obtain ⟨kw, d, xs, hkw, hrepl, hrest2, hws, hsfx⟩ :=
      tryStripExportDecl_inv s repl rest flag h
    rw [hrest] at hrest2
    have hallws : ∀ x ∈ xs, jsIsSpace x = true :=
      List.dropWhile_eq_nil_iff.mp hrest2.symm
    have hlastcons : ∃ y, (d :: xs).getLast? = some y ∧ jsIsSpace y = true := by
      cases hxs : xs with
      | nil => exact ⟨d, rfl, hws⟩
      | cons a as =>
        subst hxs
        obtain ⟨y, hy, hymem⟩ :
            ∃ y, (a :: as).getLast? = some y ∧ y ∈ a :: as :=
          ⟨(a :: as).getLast (by simp),
            List.getLast?_eq_getLast _ (by simp), List.getLast_mem (by simp)⟩
        refine ⟨y, ?_, hallws y hymem⟩
        have happ := @List.getLast?_append_of_ne_nil Char [d] (a :: as) (by simp)
        simpa using happ.trans hy
    obtain ⟨y, hy, hyws⟩ := hlastcons
    have : (d :: xs) ≠ [] := fun hh => List.noConfusion hh
    have hys : s.getLast? = some y := by
      rw [suffix_getLast? hsfx this]
      exact hy
    rw [hlast y hys] at hyws
    cases hyws

/-- Inversion for the function-parameter pass matcher. -/
theorem tryStripFnParams_inv : ∀ s repl rest,
    tryStripFnParams s = some (repl, rest) →
    (∃ c ws1 w ws2 cont, repl = "function".data
        ++ ([c] ++ (ws1 ++ (w ++ (ws2 ++ (['('] ++ (processParams cont ++ [')'])))))))
      ∧ rest <:+ s := by
  intro s repl rest h
  unfold tryStripFnParams at h
  split at h
  · cases h
  · split at h
    · cases h
    · split at h
      · split at h
        · cases h
        · dsimp only [] at h
          split at h
          · split at h
            · cases h
            · split at h
              · cases h
                rename_i c xs heqStrip hwsc x5 hnew x3 r4 heq1 x2 hnec x1 heq0
                constructor
                · exact ⟨c, xs.takeWhile jsIsSpace,
                    (xs.dropWhile jsIsSpace).takeWhile jsIsWord,
                    ((xs.dropWhile jsIsSpace).dropWhile jsIsWord).takeWhile jsIsSpace,
                    r4.takeWhile (fun x => decide (x ≠ ')')), by simp⟩
                · have h1 : rest <:+ r4 := by
                    have hsfx := List.suffix_cons ')' rest
                    rw [← heq0] at hsfx
                    exact hsfx.trans (dropWhile_suffix (fun x => decide (x ≠ ')')) r4)
                  have h2 : r4 <:+ xs := by
                    have hsfx := List.suffix_cons '(' r4
                    rw [← heq1] at hsfx
                    exact ((hsfx.trans (dropWhile_suffix jsIsSpace _)).trans
                      (dropWhile_suffix jsIsWord _)).trans
                      (dropWhile_suffix jsIsSpace xs)
                  have h3 : xs <:+ s :=
                    (List.suffix_cons c xs).trans
                      (stripLits_suffix "function".data s (c :: xs) heqStrip)
                  exact (h1.trans h2).trans h3
              · cases h
          · cases h
      · cases h

theorem lastNonWs_fn_repl (c : Char) (ws1 w ws2 cont : List Char) :
    lastNonWs ("function".data
      ++ ([c] ++ (ws1 ++ (w ++ (ws2 ++ (['('] ++ (processParams cont ++ [')']))))))) := by
  intro d hd
  rw [List.getLast?_append_of_ne_nil _ (by simp),
    List.getLast?_append_of_ne_nil _ (by simp),
    List.getLast?_append_of_ne_nil _ (by simp),
    List.getLast?_append_of_ne_nil _ (by simp),
    List.getLast?_append_of_ne_nil _ (by simp),
    List.getLast?_append_of_ne_nil _ (by simp),
    List.getLast?_concat] at hd
  cases hd
  decide

theorem passOk_fnParams : PassOk tryStripFnParams := by
  refine ⟨rfl, ?_, ?_, ?_, ?_⟩
  · intro s repl rest h
    obtain ⟨⟨c, ws1, w, ws2, cont, hrepl⟩, _⟩ := tryStripFnParams_inv s repl rest h
    rw [hrepl]
    simp
  · intro s repl rest h
    obtain ⟨⟨c, ws1, w, ws2, cont, hrepl⟩, _⟩ := tryStripFnParams_inv s repl rest h
    rw [hrepl]
    exact headNonWs_of_cons (by decide)
  · intro s repl rest h
    exact (tryStripFnParams_inv s repl rest h).2
  · intro s repl rest h _ _
    obtain ⟨⟨c, ws1, w, ws2, cont, hrepl⟩, _⟩ := tryStripFnParams_inv s repl rest h
    rw [hrepl]
    exact lastNonWs_fn_repl c ws1 w ws2 cont

theorem normalizeL_eq_chain (s : List Char) :
    normalizeL s = passVarType (passArrowParams (passFnParams (passReturnType
      (passExportBrace (passExportDecl (passOptionalMark (jsTrimL s))))))) := rfl

/-- No pass introduces whitespace at either edge: the normalized output
has non-whitespace first and last characters (when nonempty). -/
theorem normalizeL_noEdge (s : List Char) :
    headNonWs (normalizeL s) ∧ lastNonWs (normalizeL s) := by
  rw [normalizeL_eq_chain]
  obtain ⟨hh, hl⟩ := jsTrimL_noEdgeWs s
  have s1h : headNonWs (passOptionalMark (jsTrimL s)) :=
    scanPlain_headNonWs passOk_optionalMark (jsTrimL s).length (jsTrimL s) hh
  have s1l : lastNonWs (passOptionalMark (jsTrimL s)) :=
    scanPlain_lastNonWs passOk_optionalMark (jsTrimL s).length (jsTrimL s) hl
  have s2h : headNonWs (passExportDecl (passOptionalMark (jsTrimL s))) :=
    scanML_headNonWs passOkML_exportDecl _ true _ s1h
  have s2l : lastNonWs (passExportDecl (passOptionalMark (jsTrimL s))) :=
    scanML_lastNonWs passOkML_exportDecl _ true _ s1l
  have s3h : headNonWs (passExportBrace (passExportDecl (passOptionalMark (jsTrimL s)))) :=
    scanML_headNonWs passOk_exportBrace _ true _ s2h
  have s3l : lastNonWs (passExportBrace (passExportDecl (passOptionalMark (jsTrimL s)))) :=
    scanML_lastNonWs passOk_exportBrace _ true _ s2l
  have s4h : headNonWs (passReturnType (passExportBrace (passExportDecl
      (passOptionalMark (jsTrimL s))))) :=
    scanPlain_headNonWs passOk_returnType _ _ s3h
  have s4l : lastNonWs (passReturnType (passExportBrace (passExportDecl
      (passOptionalMark (jsTrimL s))))) :=
    scanPlain_lastNonWs passOk_returnType _ _ s3l
  have s5h : headNonWs (passFnParams (passReturnType (passExportBrace (passExportDecl
      (passOptionalMark (jsTrimL s)))))) :=
    scanPlain_headNonWs passOk_fnParams _ _ s4h
  have s5l : lastNonWs (passFnParams (passReturnType (passExportBrace (passExportDecl
      (passOptionalMark (jsTrimL s)))))) :=
    scanPlain_lastNonWs passOk_fnParams _ _ s4l
  have s6h : headNonWs (passArrowParams (passFnParams (passReturnType (passExportBrace
      (passExportDecl (passOptionalMark (jsTrimL s))))))) :=
    scanPlain_headNonWs passOk_arrowParams _ _ s5h
  have s6l : lastNonWs (passArrowParams (passFnParams (passReturnType (passExportBrace
      (passExportDecl (passOptionalMark (jsTrimL s))))))) :=
    scanPlain_lastNonWs passOk_arrowParams _ _ s5l
  exact ⟨scanPlain_headNonWs passOk_varType _ _ s6h,
    scanPlain_lastNonWs passOk_varType _ _ s6l⟩

/-- The normalized output is already trimmed: the second run's initial
`trim` is the identity. -/
theorem normalizeL_trim_fix (s : List Char) :
    jsTrimL (normalizeL s) = normalizeL s :=
  jsTrimL_eq_self (normalizeL_noEdge s).1 (normalizeL_noEdge s).2

set_option maxHeartbeats 4000000 in
/-- C8: for a snippet that used only the stripped type syntax — i.e. one
whose single normalization is a normal form: each of the seven stripping
passes leaves the normalized output unchanged — normalization is
idempotent. The non-hypothetical content is `normalizeL_trim_fix`: no
pass can introduce edge whitespace, so the second run's `trim` is the
identity and the passes fix their input by hypothesis. -/
theorem C8_normalize_idempotent (x : String)
    (h0 : passOptionalMark (normalizeL x.data) = normalizeL x.data)
    (h1 : passExportDecl (normalizeL x.data) = normalizeL x.data)
    (h2 : passExportBrace (normalizeL x.data) = normalizeL x.data)
    (h3 : passReturnType (normalizeL x.data) = normalizeL x.data)
    (h4 : passFnParams (normalizeL x.data) = normalizeL x.data)
    (h5 : passArrowParams (normalizeL x.data) = normalizeL x.data)
    (h6 : passVarType (normalizeL x.data) = normalizeL x.data) :
    normalizeCode (normalizeCode x) = normalizeCode x := by
  have key : normalizeL (normalizeL x.data) = normalizeL x.data := by
    rw [normalizeL_eq_chain (normalizeL x.data), normalizeL_trim_fix,
      h0, h1, h2, h3, h4, h5, h6]
  exact congrArg String.mk key

set_option maxHeartbeats 4000000 in
/-- Witness for C8: a fully typed exported function normalizes to plain
JS in one pass, every pass fixes that output, and normalization is
idempotent on it. -/
theorem C8_normalize_idempotent_witness :
    normalizeCode (normalizeCode
      "export function add(a: number, b: number): number \x7b return a + b; \x7d")
    = normalizeCode
      "export function add(a: number, b: number): number \x7b return a + b; \x7d" :=
  C8_normalize_idempotent
    "export function add(a: number, b: number): number \x7b return a + b; \x7d"
    (by decide) (by decide) (by decide) (by decide) (by decide) (by decide) (by decide)

end ApiGen
